import Mathlib

/-!
A verification development for the table-construction engine of
WetHumidGasPvt (initFromState together with its helpers
extendPvtgwTable_ and extendPvtgTable_).

The embedding uses exact rational arithmetic in place of the C++
floating-point scalars, lists in place of std::vector, and an explicit
error channel (Except) in place of thrown exceptions.  Unchecked
std::vector indexing (which the C++ leaves undefined when out of range)
is rendered as the distinguished error indexOutOfBounds, and the
assert(numY > 0) in the extrapolation loop as the distinguished error
assertFailed, so that the construction is a total function.
-/

set_option linter.unusedVariables false

namespace OpmPvt

/-- One undersaturated sample row of a PVTGW or PVTG sub-table:
the ratio column (RW for PVTGW, RV for PVTG), BG and MUG. -/
structure USatRow where
  rv : ℚ
  bg : ℚ
  mug : ℚ
  deriving DecidableEq

/-- One saturated-table row: columns PG, the ratio column (RW for PVTGW,
RV for PVTG), BG and MUG. -/
structure SatRow where
  pg : ℚ
  rvw : ℚ
  bg : ℚ
  mug : ℚ
  deriving DecidableEq

/-- A PVTGW or PVTG table: every saturated row paired with its
undersaturated sub-table (the PvtxTable layout guarantees one
undersaturated table per saturated row). -/
abbrev PvtxTable := List (SatRow × List USatRow)

/-- Default row handed to List.getD when indexing a PvtxTable. -/
def dRow : SatRow × List USatRow := (⟨0, 0, 0, 0⟩, [])

/-- An RWGSALT table: saturated rows (their PG value) each paired with the
undersaturated (C_SALT, RVW) rows attached to that pressure node. -/
abbrev RwgsaltTable := List (ℚ × List (ℚ × ℚ))

/-- One record of the density table: oil, gas and water reference density. -/
structure DensityRecord where
  oil : ℚ
  gas : ℚ
  water : ℚ
  deriving DecidableEq

/-- The slice of EclipseState consumed by initFromState: the PVTGW, PVTG,
density and RWGSALT tables delivered by the table manager. -/
structure EclipseTables where
  pvtgwTables : List PvtxTable
  pvtgTables : List PvtxTable
  densityTable : List DensityRecord
  rwgsaltTables : List RwgsaltTable
  deriving DecidableEq

/-- Modelled from the spec: the oil-vaporization control type carried by a
schedule step (OilVaporizationProperties::OilVaporization); the engine only
tests whether it equals VAPPARS. -/
inductive OilVaporizationKind where
  | disabled
  | drdt
  | vappars
  deriving DecidableEq

/-- Modelled from the spec: the oil-vaporization properties of one schedule
step; vap1 is the VAPPARS coefficient. -/
structure OilVapProps where
  kind : OilVaporizationKind
  vap1 : ℚ
  deriving DecidableEq

/-- Modelled from the spec: the simulation schedule.  initFromState reads
schedule[0] only, so the first step is kept apart from the later ones. -/
structure Schedule where
  step0 : OilVapProps
  laterSteps : List OilVapProps
  deriving DecidableEq

/-- Which input table an error message refers to. -/
inductive TableKind where
  | pvtgw
  | pvtg
  | rwgsalt
  deriving DecidableEq

/-- The error channel of the construction.  tableMismatch carries the two
mismatched counts (table count, density count); indexOutOfBounds renders
unchecked std::vector indexing beyond the end; assertFailed renders the
assert(numY > 0) of the extrapolation loop. -/
inductive PvtError where
  | tableMismatch (kind : TableKind) (tables : Nat) (regions : Nat)
  | insufficientData (kind : TableKind)
  | extrapolationImpossible (kind : TableKind)
  | indexOutOfBounds
  | assertFailed
  deriving DecidableEq

/-- A 2-D sampled function (the UniformXTabulated2DFunction of the source,
modelled from the spec): an outer x axis and, per outer position, the inner
(y, value) samples appended so far. -/
structure Tab2D where
  xPos : List ℚ
  samples : List (List (ℚ × ℚ))
  deriving DecidableEq

def Tab2D.empty : Tab2D := ⟨[], []⟩

/-- appendXPos: a new outer position with an initially empty inner branch. -/
def Tab2D.appendXPos (t : Tab2D) (x : ℚ) : Tab2D :=
  ⟨t.xPos ++ [x], t.samples ++ [[]]⟩

/-- appendSamplePoint: append one (y, value) sample to inner branch i. -/
def Tab2D.appendSamplePoint (t : Tab2D) (i : Nat) (y v : ℚ) : Tab2D :=
  ⟨t.xPos, t.samples.set i (t.samples.getD i [] ++ [(y, v)])⟩

def Tab2D.numX (t : Tab2D) : Nat := t.xPos.length

def Tab2D.numY (t : Tab2D) (i : Nat) : Nat := (t.samples.getD i []).length

/-- A 1-D sampled function (setXYArrays / setXYContainers replace its whole
content, so only the stored (x, y) pairs are modelled). -/
structure Tab1D where
  xy : List (ℚ × ℚ)
  deriving DecidableEq

def Tab1D.empty : Tab1D := ⟨[]⟩

/-- The member state of WetHumidGasPvt populated by initFromState. -/
structure PvtState where
  numRegions : Nat
  referenceDensities : List (ℚ × ℚ × ℚ)
  enableRwgSalt : Bool
  saturatedWaterVaporizationSaltFactorTable : List Tab2D
  saturatedWaterVaporizationFactorTable : List Tab1D
  gasMuRvSat : List Tab2D
  inverseGasBRvSat : List Tab2D
  saturatedOilVaporizationFactorTable : List Tab1D
  gasMuRvwSat : List Tab2D
  inverseGasBRvwSat : List Tab2D
  inverseSaturatedGasB : List Tab1D
  inverseSaturatedGasBMu : List Tab1D
  vapPar1 : ℚ
  deriving DecidableEq

/-- setNumRegions: resize every per-region member to n default entries. -/
def PvtState.initRegions (n : Nat) : PvtState where
  numRegions := n
  referenceDensities := List.replicate n (0, 0, 0)
  enableRwgSalt := false
  saturatedWaterVaporizationSaltFactorTable := List.replicate n Tab2D.empty
  saturatedWaterVaporizationFactorTable := List.replicate n Tab1D.empty
  gasMuRvSat := List.replicate n Tab2D.empty
  inverseGasBRvSat := List.replicate n Tab2D.empty
  saturatedOilVaporizationFactorTable := List.replicate n Tab1D.empty
  gasMuRvwSat := List.replicate n Tab2D.empty
  inverseGasBRvwSat := List.replicate n Tab2D.empty
  inverseSaturatedGasB := List.replicate n Tab1D.empty
  inverseSaturatedGasBMu := List.replicate n Tab1D.empty
  vapPar1 := 0

/-- The master-table scan of the extrapolation loop: starting at index m,
advance while the undersaturated table has fewer than two rows; fuel is the
number of indices still in range (saturatedTable.numRows() - m). -/
def findMasterAux (usats : List (List USatRow)) : Nat → Nat → Option Nat
  | _, 0 => none
  | m, fuel + 1 =>
    if 1 < (usats.getD m []).length then some m
    else findMasterAux usats (m + 1) fuel

/-- The per-pair synthesis of extendPvtgwTable_ / extendPvtgTable_: walk the
consecutive master rows, carrying the last known (rv, Bg, mug) of the node
being extended (RvArray.back() and friends), and emit the synthesized
points in order. -/
def synthPoints : List USatRow → ℚ × ℚ × ℚ → List (ℚ × ℚ × ℚ)
  | m0 :: m1 :: rest, s =>
    let diffRv := m1.rv - m0.rv
    let newRv := s.1 + diffRv
    let x := (m1.bg - m0.bg) / ((m1.bg + m0.bg) / 2)
    let newBg := s.2.1 * (1 + x / 2) / (1 - x / 2)
    let xMu := (m1.mug - m0.mug) / ((m1.mug + m0.mug) / 2)
    let newMug := s.2.2 * (1 + xMu / 2) / (1 - xMu / 2)
    (newRv, newBg, newMug) :: synthPoints (m1 :: rest) (newRv, newBg, newMug)
  | _, _ => []

/-- extendPvtgwTable_ and extendPvtgTable_ (identical up to the name of the
ratio column, which the row type already abstracts): starting from the last
row of the current undersaturated table, register every synthesized point
with the inverse-B table as (rv, 1/Bg) and with the viscosity table as
(rv, mug).  The source reads curTable's columns into arrays and uses
.back(); an empty curTable (excluded upstream by assert(numY > 0)) leaves
the tables unchanged here. -/
def extendPvtxTable (invB mu2D : Tab2D) (xIdx : Nat)
    (cur master : List USatRow) : Tab2D × Tab2D :=
  match cur.getLast? with
  | none => (invB, mu2D)
  | some c =>
    let pts := synthPoints master (c.rv, c.bg, c.mug)
    (pts.foldl (fun t p => t.appendSamplePoint xIdx p.1 (1 / p.2.1)) invB,
     pts.foldl (fun t p => t.appendSamplePoint xIdx p.1 p.2.2) mu2D)

/-- The "make sure to have at least two sample points per gas pressure
value" loop: scan xIdx over the outer positions (fuel counts the positions
still to visit); a branch with one sample is completed from the first later
master with more than one raw row, and the loop fails when no such master
exists.  usats holds the raw undersaturated tables of the processed
PvtxTable. -/
def extendLoop (kind : TableKind) (usats : List (List USatRow)) :
    Nat → Nat → Tab2D → Tab2D → Except PvtError (Tab2D × Tab2D)
  | _, 0, invB, mu2D => Except.ok (invB, mu2D)
  | xIdx, fuel + 1, invB, mu2D =>
    if invB.numY xIdx = 0 then Except.error PvtError.assertFailed
    else if 1 < invB.numY xIdx then extendLoop kind usats (xIdx + 1) fuel invB mu2D
    else
      match findMasterAux usats (xIdx + 1) (usats.length - (xIdx + 1)) with
      | none => Except.error (PvtError.extrapolationImpossible kind)
      | some m =>
        let p := extendPvtxTable invB mu2D xIdx (usats.getD xIdx []) (usats.getD m [])
        extendLoop kind usats (xIdx + 1) fuel p.1 p.2

/-- The outer/inner assembly loop shared by the PVTGW, PVTG and RWGSALT
passes: per row, appendXPos then appendSamplePoint for every inner sample
of that row. -/
def buildTab2DLoop : Nat → Tab2D → List (ℚ × List (ℚ × ℚ)) → Tab2D
  | _, t, [] => t
  | outerIdx, t, (x, ys) :: rest =>
    let t1 := t.appendXPos x
    let t2 := ys.foldl (fun acc yv => acc.appendSamplePoint outerIdx yv.1 yv.2) t1
    buildTab2DLoop (outerIdx + 1) t2 rest

def buildTab2D (rows : List (ℚ × List (ℚ × ℚ))) : Tab2D :=
  buildTab2DLoop 0 Tab2D.empty rows

/-- The raw inner branches fed to the inverse-B 2-D table: per saturated
row, (PG, the (rv, 1/Bg) samples of its undersaturated table). -/
def rawInvBBranches (rows : PvtxTable) : List (ℚ × List (ℚ × ℚ)) :=
  rows.map fun r => (r.1.pg, r.2.map fun u => (u.rv, 1 / u.bg))

/-- The raw inner branches fed to the viscosity 2-D table: per saturated
row, (PG, the (rv, mug) samples of its undersaturated table). -/
def rawMuBranches (rows : PvtxTable) : List (ℚ × List (ℚ × ℚ)) :=
  rows.map fun r => (r.1.pg, r.2.map fun u => (u.rv, u.mug))

/-- The saturated inverse-B curve: the accumulated invSatGasBArray
(1/B per saturated row) zipped with the PG column by setXYContainers. -/
def invSatGasBOf (rows : PvtxTable) : Tab1D :=
  ⟨rows.map fun r => (r.1.pg, 1 / r.1.bg)⟩

/-- The saturated inverse-(mu B) curve: the accumulated invSatGasBMuArray
(1/(mu B) per saturated row) zipped with the PG column. -/
def invSatGasBMuOf (rows : PvtxTable) : Tab1D :=
  ⟨rows.map fun r => (r.1.pg, 1 / (r.1.mug * r.1.bg))⟩

/-- The per-region tables produced by one PVTGW or PVTG pass. -/
structure PvtxRegionTables where
  vapFac : Tab1D
  invGasB : Tab2D
  gasMu : Tab2D
  invSatGasB : Tab1D
  invSatGasBMu : Tab1D
  deriving DecidableEq

def PvtxRegionTables.empty : PvtxRegionTables :=
  ⟨Tab1D.empty, Tab2D.empty, Tab2D.empty, Tab1D.empty, Tab1D.empty⟩

/-- One region of the PVTGW pass (and, with kind = pvtg, of the textually
identical PVTG pass): reject a saturated table with fewer than 2 rows,
build the vaporization-factor curve (PG against RW resp. RV), the two 2-D
tables and the two saturated inverse curves, then run the extrapolation
loop over all outer positions. -/
def processPvtxRegion (kind : TableKind) (rows : PvtxTable) :
    Except PvtError PvtxRegionTables :=
  if rows.length < 2 then Except.error (PvtError.insufficientData kind)
  else
    let invB := buildTab2D (rawInvBBranches rows)
    let mu2D := buildTab2D (rawMuBranches rows)
    match extendLoop kind (rows.map fun r => r.2) 0 invB.numX invB mu2D with
    | Except.error e => Except.error e
    | Except.ok p =>
      Except.ok
        ⟨⟨rows.map fun r => (r.1.pg, r.1.rvw)⟩, p.1, p.2,
          invSatGasBOf rows, invSatGasBMuOf rows⟩

/-- Sequential per-region processing of one pass; the first failing region
aborts the pass, exactly like the per-region loops of the source. -/
def regionsMapM {α β : Type} (f : α → Except PvtError β) :
    List α → Except PvtError (List β)
  | [] => Except.ok []
  | a :: rest =>
    match f a with
    | Except.error e => Except.error e
    | Except.ok b =>
      match regionsMapM f rest with
      | Except.error e => Except.error e
      | Except.ok bs => Except.ok (b :: bs)

/-- The RWGSALT region loop: index the salt-table list by every region
index (the source performs no bounds check here, so a missing entry is the
rendered out-of-bounds error), reject a saturated salt table with fewer
than 2 rows, and assemble the (PG, C_SALT, RVW) 2-D table. -/
def saltRegionsLoop (salts : List RwgsaltTable) : Nat → Nat → Except PvtError (List Tab2D)
  | _, 0 => Except.ok []
  | regionIdx, n + 1 =>
    match salts.get? regionIdx with
    | none => Except.error PvtError.indexOutOfBounds
    | some t =>
      if t.length < 2 then Except.error (PvtError.insufficientData TableKind.rwgsalt)
      else
        match saltRegionsLoop salts (regionIdx + 1) n with
        | Except.error e => Except.error e
        | Except.ok rest => Except.ok (buildTab2D t :: rest)

/-- enableRwgSalt_ is the emptiness test of the salt-table list; the region
loop only runs when some salt table is present. -/
def saltPhase (salts : List RwgsaltTable) (n : Nat) :
    Except PvtError (Bool × List Tab2D) :=
  if salts.isEmpty then Except.ok (false, List.replicate n Tab2D.empty)
  else
    match saltRegionsLoop salts 0 n with
    | Except.error e => Except.error e
    | Except.ok tabs => Except.ok (true, tabs)

/-- Assemble the final member state, in the order the source writes it:
setNumRegions and the reference densities, then the salt pass, then the
PVTGW pass (which also writes inverseSaturatedGasB/BMu), then the PVTG
pass (which overwrites inverseSaturatedGasB/BMu with its own values), and
finally vapPar1 from the schedule's first step. -/
def assembleState (ecl : EclipseTables) (sched : Schedule)
    (saltResult : Bool × List Tab2D) (ws gs : List PvtxRegionTables) : PvtState :=
  let st0 := PvtState.initRegions ecl.pvtgwTables.length
  let st1 := { st0 with
    referenceDensities := ecl.densityTable.map fun d : DensityRecord => (d.oil, d.gas, d.water) }
  let st2 := { st1 with
    enableRwgSalt := saltResult.1
    saturatedWaterVaporizationSaltFactorTable := saltResult.2 }
  let st3 := { st2 with
    saturatedWaterVaporizationFactorTable := ws.map PvtxRegionTables.vapFac
    inverseGasBRvSat := ws.map PvtxRegionTables.invGasB
    gasMuRvSat := ws.map PvtxRegionTables.gasMu
    inverseSaturatedGasB := ws.map PvtxRegionTables.invSatGasB
    inverseSaturatedGasBMu := ws.map PvtxRegionTables.invSatGasBMu }
  let st4 := { st3 with
    saturatedOilVaporizationFactorTable := gs.map PvtxRegionTables.vapFac
    inverseGasBRvwSat := gs.map PvtxRegionTables.invGasB
    gasMuRvwSat := gs.map PvtxRegionTables.gasMu
    inverseSaturatedGasB := gs.map PvtxRegionTables.invSatGasB
    inverseSaturatedGasBMu := gs.map PvtxRegionTables.invSatGasBMu }
  { st4 with
    vapPar1 :=
      if sched.step0.kind = OilVaporizationKind.vappars then sched.step0.vap1 else 0 }

/-- WetHumidGasPvt::initFromState: the two table-count checks, the salt
pass, the PVTGW pass, the PVTG pass, and vapPar1 from schedule[0]. -/
def initFromState (ecl : EclipseTables) (sched : Schedule) : Except PvtError PvtState :=
  if ecl.pvtgwTables.length ≠ ecl.densityTable.length then
    Except.error
      (PvtError.tableMismatch TableKind.pvtgw ecl.pvtgwTables.length ecl.densityTable.length)
  else if ecl.pvtgTables.length ≠ ecl.densityTable.length then
    Except.error
      (PvtError.tableMismatch TableKind.pvtg ecl.pvtgTables.length ecl.densityTable.length)
  else
    match saltPhase ecl.rwgsaltTables ecl.pvtgwTables.length with
    | Except.error e => Except.error e
    | Except.ok saltResult =>
      match regionsMapM (processPvtxRegion TableKind.pvtgw) ecl.pvtgwTables with
      | Except.error e => Except.error e
      | Except.ok ws =>
        match regionsMapM (processPvtxRegion TableKind.pvtg) ecl.pvtgTables with
        | Except.error e => Except.error e
        | Except.ok gs => Except.ok (assembleState ecl sched saltResult ws gs)

/-- The spec's synthesized ratio: newRatio = lastKnownRatio + (r1 - r0). -/
def specNewRv (s : ℚ) (m0 m1 : USatRow) : ℚ := s + (m1.rv - m0.rv)

/-- The spec's synthesized volume factor:
newB = lastKnownB (1 + x/2)/(1 - x/2), x = (B1 - B0)/((B0 + B1)/2). -/
def specNewB (b : ℚ) (m0 m1 : USatRow) : ℚ :=
  let x := (m1.bg - m0.bg) / ((m0.bg + m1.bg) / 2)
  b * (1 + x / 2) / (1 - x / 2)

/-- The spec's synthesized viscosity:
newMu = lastKnownMu (1 + xMu/2)/(1 - xMu/2), xMu = (mu1 - mu0)/((mu0 + mu1)/2). -/
def specNewMu (mu : ℚ) (m0 m1 : USatRow) : ℚ :=
  let xMu := (m1.mug - m0.mug) / ((m0.mug + m1.mug) / 2)
  mu * (1 + xMu / 2) / (1 - xMu / 2)

/- Concrete inputs used by witnesses and counterexamples. -/

/-- A saturated row whose undersaturated branch is degenerate (one sample). -/
def rowDeg : SatRow × List USatRow := (⟨1, 5, 1, 1⟩, [⟨0, 1, 1⟩])

/-- A saturated row with a two-sample undersaturated branch. -/
def rowFull : SatRow × List USatRow := (⟨2, 6, 1, 1⟩, [⟨0, 1, 1⟩, ⟨1, 2, 2⟩])

/-- Degenerate first node, full last node: extrapolation succeeds. -/
def tblDegFirst : PvtxTable := [rowDeg, rowFull]

/-- Full first node, degenerate last node: no later master exists. -/
def tblDegLast : PvtxTable := [rowFull, rowDeg]

/-- Both nodes degenerate. -/
def tblBothDeg : PvtxTable := [rowDeg, rowDeg]

def densOne : DensityRecord := ⟨1, 1, 1⟩

def schedGood : Schedule := ⟨⟨OilVaporizationKind.vappars, 3⟩, []⟩

/-- A valid one-region input whose first PVTGW/PVTG node needs extension. -/
def eclGood : EclipseTables := ⟨[tblDegFirst], [tblDegFirst], [densOne], []⟩

def stGood : PvtState :=
  match initFromState eclGood schedGood with
  | Except.ok s => s
  | Except.error _ => PvtState.initRegions 0

/-- A salt table with two saturated rows. -/
def saltTwoRows : RwgsaltTable := [(1, [(0, 0)]), (2, [(0, 0)])]

/-- One region everywhere, but two salt tables: the table counts are not
all equal, yet construction succeeds (the extra salt entry is ignored). -/
def eclC4 : EclipseTables :=
  ⟨[tblDegFirst], [tblDegFirst], [densOne], [saltTwoRows, saltTwoRows]⟩

def stC4 : PvtState :=
  match initFromState eclC4 schedGood with
  | Except.ok s => s
  | Except.error _ => PvtState.initRegions 0

/-- A PVTGW table whose first branch meets the two-sample threshold but
whose last branch is degenerate. -/
def eclC6 : EclipseTables := ⟨[tblDegLast], [tblDegFirst], [densOne], []⟩

/-- Two regions, but a single (well-formed) salt table. -/
def eclC10 : EclipseTables :=
  ⟨[[], []], [[], []], [densOne, densOne], [saltTwoRows]⟩

/-- No PVTGW table against one density record. -/
def eclMismatchW : EclipseTables := ⟨[], [], [densOne], []⟩

/-- One PVTGW table, no PVTG table, one density record. -/
def eclMismatchG : EclipseTables := ⟨[tblDegFirst], [], [densOne], []⟩

/-- A 2-D table whose two branches both carry two samples already. -/
def tabTwo : Tab2D := ⟨[1, 2], [[(0, 1), (1, 2)], [(0, 1), (1, 2)]]⟩

/-- A 2-D table with one outer position holding a single sample. -/
def tabOne : Tab2D := ⟨[1], [[(0, 1)]]⟩

/-- A salt table with a single saturated row. -/
def shortSalt : RwgsaltTable := [(1, [])]

/-- Undersaturated tables: node 0 degenerate, node 1 with two rows. -/
def usatsOneTwo : List (List USatRow) := [[⟨0, 1, 1⟩], [⟨0, 1, 1⟩, ⟨1, 2, 2⟩]]

/-- Undersaturated tables: both nodes degenerate. -/
def usatsOneOne : List (List USatRow) := [[⟨0, 1, 1⟩], [⟨0, 1, 1⟩]]

/-! ### List helper lemmas -/

theorem list_getD_of_le {α : Type} (l : List α) (i : Nat) (d : α) (h : l.length ≤ i) :
    l.getD i d = d := by
  induction l generalizing i with
  | nil => cases i <;> rfl
  | cons a l ih =>
    cases i with
    | zero => simp at h
    | succ n => exact ih n (Nat.le_of_succ_le_succ h)

theorem list_getD_set_self {α : Type} (l : List α) (i : Nat) (a d : α) (h : i < l.length) :
    (l.set i a).getD i d = a := by
  induction l generalizing i with
  | nil => simp at h
  | cons b l ih =>
    cases i with
    | zero => rfl
    | succ n => exact ih n (Nat.lt_of_succ_lt_succ h)

theorem list_getD_set_ne {α : Type} (l : List α) (i j : Nat) (a d : α) (h : i ≠ j) :
    (l.set i a).getD j d = l.getD j d := by
  induction l generalizing i j with
  | nil => rfl
  | cons b l ih =>
    cases i with
    | zero =>
      cases j with
      | zero => exact absurd rfl h
      | succ m => rfl
    | succ n =>
      cases j with
      | zero => rfl
      | succ m => exact ih n m (fun hnm => h (by rw [hnm]))

theorem list_set_getD_self {α : Type} (l : List α) (i : Nat) (d : α) :
    l.set i (l.getD i d) = l := by
  induction l generalizing i with
  | nil => rfl
  | cons b l ih =>
    cases i with
    | zero => rfl
    | succ n =>
      show b :: l.set n (l.getD n d) = b :: l
      rw [ih n]

theorem list_getD_map {α β : Type} (l : List α) (f : α → β) (i : Nat) (d : α) :
    (l.map f).getD i (f d) = f (l.getD i d) := by
  induction l generalizing i with
  | nil => cases i <;> rfl
  | cons a l ih =>
    cases i with
    | zero => rfl
    | succ n => exact ih n

theorem list_set_append_length {α : Type} (l : List α) (a b : α) :
    (l ++ [a]).set l.length b = l ++ [b] := by
  induction l with
  | nil => rfl
  | cons c l ih => simp [List.set, ih]

theorem list_getD_append_length {α : Type} (l : List α) (a d : α) :
    (l ++ [a]).getD l.length d = a := by
  induction l with
  | nil => rfl
  | cons c l ih =>
    show (l ++ [a]).getD l.length d = a
    exact ih

/-! ### Tab2D append lemmas -/

theorem appendSamplePoint_xPos (t : Tab2D) (i : Nat) (y v : ℚ) :
    (t.appendSamplePoint i y v).xPos = t.xPos := rfl

theorem appendSamplePoint_samples_length (t : Tab2D) (i : Nat) (y v : ℚ) :
    (t.appendSamplePoint i y v).samples.length = t.samples.length := by
  simp [Tab2D.appendSamplePoint]

theorem appendSamplePoint_numY_ne (t : Tab2D) (i j : Nat) (y v : ℚ) (h : j ≠ i) :
    (t.appendSamplePoint i y v).numY j = t.numY j := by
  show ((t.samples.set i (t.samples.getD i [] ++ [(y, v)])).getD j []).length
    = (t.samples.getD j []).length
  rw [list_getD_set_ne _ _ _ _ _ (fun hij => h hij.symm)]

theorem foldl_appendSamplePoint_xPos {α : Type} (f g : α → ℚ) (pts : List α) :
    ∀ (t : Tab2D) (i : Nat),
      (pts.foldl (fun acc p => acc.appendSamplePoint i (f p) (g p)) t).xPos = t.xPos := by
  induction pts with
  | nil => intro t i; rfl
  | cons p pts ih => intro t i; simpa using ih (t.appendSamplePoint i (f p) (g p)) i

theorem foldl_appendSamplePoint_samples {α : Type} (f g : α → ℚ) (pts : List α) :
    ∀ (t : Tab2D) (i : Nat), i < t.samples.length →
      (pts.foldl (fun acc p => acc.appendSamplePoint i (f p) (g p)) t).samples
        = t.samples.set i (t.samples.getD i [] ++ pts.map fun p => (f p, g p)) := by
  induction pts with
  | nil =>
    intro t i h
    rw [List.foldl_nil, List.map_nil, List.append_nil, list_set_getD_self]
  | cons p pts ih =>
    intro t i h
    have h1 : i < (t.appendSamplePoint i (f p) (g p)).samples.length := by
      rw [appendSamplePoint_samples_length]; exact h
    rw [List.foldl_cons, ih (t.appendSamplePoint i (f p) (g p)) i h1]
    simp only [Tab2D.appendSamplePoint, List.set_set,
      list_getD_set_self _ _ _ _ h, List.map_cons, List.append_assoc,
      List.singleton_append]

theorem foldl_appendSamplePoint_samples_length {α : Type} (f g : α → ℚ) (pts : List α) :
    ∀ (t : Tab2D) (i : Nat),
      (pts.foldl (fun acc p => acc.appendSamplePoint i (f p) (g p)) t).samples.length
        = t.samples.length := by
  induction pts with
  | nil => intro t i; rfl
  | cons p pts ih =>
    intro t i
    rw [List.foldl_cons, ih, appendSamplePoint_samples_length]

theorem foldl_appendSamplePoint_numY_ne {α : Type} (f g : α → ℚ) (pts : List α) :
    ∀ (t : Tab2D) (i j : Nat), j ≠ i →
      (pts.foldl (fun acc p => acc.appendSamplePoint i (f p) (g p)) t).numY j = t.numY j := by
  induction pts with
  | nil => intro t i j h; rfl
  | cons p pts ih =>
    intro t i j h
    rw [List.foldl_cons, ih _ _ _ h, appendSamplePoint_numY_ne _ _ _ _ _ h]

/-! ### buildTab2D characterization -/

theorem buildTab2DLoop_spec (rows : List (ℚ × List (ℚ × ℚ))) :
    ∀ (n : Nat) (t : Tab2D), t.xPos.length = n → t.samples.length = n →
      buildTab2DLoop n t rows = ⟨t.xPos ++ rows.map Prod.fst, t.samples ++ rows.map Prod.snd⟩ := by
  induction rows with
  | nil => intro n t h1 h2; simp [buildTab2DLoop]
  | cons r rest ih =>
    intro n t h1 h2
    obtain ⟨x, ys⟩ := r
    have hx1 : (t.appendXPos x).xPos.length = n + 1 := by
      simp [Tab2D.appendXPos, h1]
    have hs1 : (t.appendXPos x).samples.length = n + 1 := by
      simp [Tab2D.appendXPos, h2]
    have hn : n < (t.appendXPos x).samples.length := by omega
    have hfold :
        (ys.foldl (fun acc yv => acc.appendSamplePoint n yv.1 yv.2) (t.appendXPos x)).samples
          = t.samples ++ [ys] := by
      rw [foldl_appendSamplePoint_samples (fun yv => yv.1) (fun yv => yv.2) ys _ n hn]
      show (t.samples ++ [[]]).set n
          ((t.samples ++ [[]]).getD n [] ++ ys.map fun p : ℚ × ℚ => (p.1, p.2))
        = t.samples ++ [ys]
      rw [← h2, list_getD_append_length, list_set_append_length]
      simp
    have hfoldx :
        (ys.foldl (fun acc yv => acc.appendSamplePoint n yv.1 yv.2) (t.appendXPos x)).xPos
          = t.xPos ++ [x] := by
      rw [foldl_appendSamplePoint_xPos (fun yv => yv.1) (fun yv => yv.2) ys _ n]
      rfl
    show buildTab2DLoop (n + 1) _ rest = _
    rw [ih (n + 1) _ (by rw [hfoldx]; simp [h1]) (by rw [hfold]; simp [h2])]
    rw [hfoldx, hfold]
    simp

theorem buildTab2D_spec (rows : List (ℚ × List (ℚ × ℚ))) :
    buildTab2D rows = ⟨rows.map Prod.fst, rows.map Prod.snd⟩ := by
  simpa [Tab2D.empty] using buildTab2DLoop_spec rows 0 Tab2D.empty rfl rfl

theorem buildTab2D_numX (rows : List (ℚ × List (ℚ × ℚ))) :
    (buildTab2D rows).numX = rows.length := by
  rw [Tab2D.numX, buildTab2D_spec]
  simp

theorem buildTab2D_samples (rows : List (ℚ × List (ℚ × ℚ))) :
    (buildTab2D rows).samples = rows.map Prod.snd := by
  rw [buildTab2D_spec]

/-! ### findMasterAux lemmas -/

theorem findMasterAux_eq_none_of (usats : List (List USatRow)) :
    ∀ (fuel start : Nat),
      (∀ k, start ≤ k → k < start + fuel → (usats.getD k []).length ≤ 1) →
      findMasterAux usats start fuel = none := by
  intro fuel
  induction fuel with
  | zero => intro start h; rfl
  | succ fuel ih =>
    intro start h
    rw [findMasterAux]
    rw [if_neg (by have := h start (Nat.le_refl start) (by omega); omega)]
    exact ih (start + 1) (fun k hk1 hk2 => h k (by omega) (by omega))

theorem findMasterAux_none_spec (usats : List (List USatRow)) :
    ∀ (fuel start : Nat), findMasterAux usats start fuel = none →
      ∀ k, start ≤ k → k < start + fuel → (usats.getD k []).length ≤ 1 := by
  intro fuel
  induction fuel with
  | zero => intro start _ k hk1 hk2; omega
  | succ fuel ih =>
    intro start h k hk1 hk2
    rw [findMasterAux] at h
    by_cases hs : 1 < (usats.getD start []).length
    · rw [if_pos hs] at h; cases h
    · rw [if_neg hs] at h
      by_cases hks : k = start
      · subst hks; omega
      · exact ih (start + 1) h k (by omega) (by omega)

theorem findMasterAux_some_spec (usats : List (List USatRow)) :
    ∀ (fuel start m : Nat), findMasterAux usats start fuel = some m →
      start ≤ m ∧ m < start + fuel ∧ 1 < (usats.getD m []).length ∧
        ∀ k, start ≤ k → k < m → (usats.getD k []).length ≤ 1 := by
  intro fuel
  induction fuel with
  | zero => intro start m h; cases h
  | succ fuel ih =>
    intro start m h
    rw [findMasterAux] at h
    by_cases hs : 1 < (usats.getD start []).length
    · rw [if_pos hs] at h
      cases h
      exact ⟨Nat.le_refl _, by omega, hs, fun k hk1 hk2 => by omega⟩
    · rw [if_neg hs] at h
      obtain ⟨h1, h2, h3, h4⟩ := ih (start + 1) m h
      refine ⟨by omega, by omega, h3, fun k hk1 hk2 => ?_⟩
      by_cases hks : k = start
      · subst hks; omega
      · exact h4 k (by omega) hk2

theorem findMasterAux_eq_some_of (usats : List (List USatRow)) :
    ∀ (fuel start m : Nat), start ≤ m → m < start + fuel →
      1 < (usats.getD m []).length →
      (∀ k, start ≤ k → k < m → (usats.getD k []).length ≤ 1) →
      findMasterAux usats start fuel = some m := by
  intro fuel
  induction fuel with
  | zero => intro start m h1 h2; omega
  | succ fuel ih =>
    intro start m h1 h2 h3 h4
    rw [findMasterAux]
    by_cases hs : start = m
    · subst hs
      rw [if_pos h3]
    · rw [if_neg (by have := h4 start (Nat.le_refl _) (by omega); omega)]
      exact ih (start + 1) m (by omega) (by omega) h3 (fun k hk1 hk2 => h4 k (by omega) hk2)

/-! ### synthPoints lemmas -/

theorem synthPoints_length : ∀ (master : List USatRow) (s : ℚ × ℚ × ℚ),
    (synthPoints master s).length = master.length - 1
  | [], _ => rfl
  | [_], _ => rfl
  | m0 :: m1 :: rest, s => by
    show (synthPoints (m0 :: m1 :: rest) s).length = rest.length + 1
    rw [synthPoints]
    simp only [List.length_cons]
    rw [synthPoints_length (m1 :: rest)]
    simp

theorem synthPoints_chain : ∀ (master : List USatRow) (s : ℚ × ℚ × ℚ),
    List.Chain' (fun a b : ℚ => a < b) (master.map USatRow.rv) →
    List.Chain' (fun a b : ℚ => a < b)
      (s.1 :: (synthPoints master s).map fun p => p.1)
  | [], s, _ => by simp [synthPoints]
  | [_], s, _ => by simp [synthPoints]
  | m0 :: m1 :: rest, s, h => by
    rw [List.map_cons, List.map_cons, List.chain'_cons] at h
    have hlt : s.1 < s.1 + (m1.rv - m0.rv) := by
      have := h.1
      linarith
    have ih := synthPoints_chain (m1 :: rest)
      (s.1 + (m1.rv - m0.rv),
       s.2.1 * (1 + (m1.bg - m0.bg) / ((m1.bg + m0.bg) / 2) / 2)
         / (1 - (m1.bg - m0.bg) / ((m1.bg + m0.bg) / 2) / 2),
       s.2.2 * (1 + (m1.mug - m0.mug) / ((m1.mug + m0.mug) / 2) / 2)
         / (1 - (m1.mug - m0.mug) / ((m1.mug + m0.mug) / 2) / 2))
      (by rw [List.map_cons]; exact h.2)
    rw [synthPoints]
    rw [List.map_cons, List.chain'_cons]
    exact ⟨hlt, ih⟩

/-! ### extendPvtxTable lemmas -/

theorem extendPvtxTable_eq_of_getLast (invB mu2D : Tab2D) (xIdx : Nat)
    (cur master : List USatRow) (c : USatRow) (hc : cur.getLast? = some c) :
    extendPvtxTable invB mu2D xIdx cur master =
      ((synthPoints master (c.rv, c.bg, c.mug)).foldl
         (fun t p => t.appendSamplePoint xIdx p.1 (1 / p.2.1)) invB,
       (synthPoints master (c.rv, c.bg, c.mug)).foldl
         (fun t p => t.appendSamplePoint xIdx p.1 p.2.2) mu2D) := by
  unfold extendPvtxTable
  rw [hc]

theorem extendPvtxTable_numY_ne (invB mu2D : Tab2D) (xIdx : Nat)
    (cur master : List USatRow) (j : Nat) (h : j ≠ xIdx) :
    (extendPvtxTable invB mu2D xIdx cur master).1.numY j = invB.numY j ∧
    (extendPvtxTable invB mu2D xIdx cur master).2.numY j = mu2D.numY j := by
  unfold extendPvtxTable
  cases hc : cur.getLast? with
  | none => exact ⟨rfl, rfl⟩
  | some c =>
    constructor
    · exact foldl_appendSamplePoint_numY_ne (fun p : ℚ × ℚ × ℚ => p.1) (fun p : ℚ × ℚ × ℚ => 1 / p.2.1) _ invB xIdx j h
    · exact foldl_appendSamplePoint_numY_ne (fun p : ℚ × ℚ × ℚ => p.1) (fun p : ℚ × ℚ × ℚ => p.2.2) _ mu2D xIdx j h

theorem extendPvtxTable_numY_self (invB mu2D : Tab2D) (xIdx : Nat)
    (cur master : List USatRow) (c : USatRow) (hc : cur.getLast? = some c)
    (hx1 : xIdx < invB.samples.length) (hx2 : xIdx < mu2D.samples.length) :
    (extendPvtxTable invB mu2D xIdx cur master).1.numY xIdx
        = invB.numY xIdx + (master.length - 1) ∧
    (extendPvtxTable invB mu2D xIdx cur master).2.numY xIdx
        = mu2D.numY xIdx + (master.length - 1) := by
  rw [extendPvtxTable_eq_of_getLast invB mu2D xIdx cur master c hc]
  constructor
  · show ((List.foldl _ invB _).samples.getD xIdx []).length = _
    rw [foldl_appendSamplePoint_samples (fun p : ℚ × ℚ × ℚ => p.1) (fun p : ℚ × ℚ × ℚ => 1 / p.2.1) _ invB xIdx hx1]
    rw [list_getD_set_self _ _ _ _ hx1]
    simp [Tab2D.numY, synthPoints_length]
  · show ((List.foldl _ mu2D _).samples.getD xIdx []).length = _
    rw [foldl_appendSamplePoint_samples (fun p : ℚ × ℚ × ℚ => p.1) (fun p : ℚ × ℚ × ℚ => p.2.2) _ mu2D xIdx hx2]
    rw [list_getD_set_self _ _ _ _ hx2]
    simp [Tab2D.numY, synthPoints_length]

theorem extendPvtxTable_xPos (invB mu2D : Tab2D) (xIdx : Nat)
    (cur master : List USatRow) :
    (extendPvtxTable invB mu2D xIdx cur master).1.xPos = invB.xPos ∧
    (extendPvtxTable invB mu2D xIdx cur master).2.xPos = mu2D.xPos := by
  unfold extendPvtxTable
  cases hc : cur.getLast? with
  | none => exact ⟨rfl, rfl⟩
  | some c =>
    constructor
    · exact foldl_appendSamplePoint_xPos (fun p : ℚ × ℚ × ℚ => p.1) (fun p : ℚ × ℚ × ℚ => 1 / p.2.1) _ invB xIdx
    · exact foldl_appendSamplePoint_xPos (fun p : ℚ × ℚ × ℚ => p.1) (fun p : ℚ × ℚ × ℚ => p.2.2) _ mu2D xIdx

theorem extendPvtxTable_samples_length (invB mu2D : Tab2D) (xIdx : Nat)
    (cur master : List USatRow) :
    (extendPvtxTable invB mu2D xIdx cur master).1.samples.length = invB.samples.length ∧
    (extendPvtxTable invB mu2D xIdx cur master).2.samples.length = mu2D.samples.length := by
  unfold extendPvtxTable
  cases hc : cur.getLast? with
  | none => exact ⟨rfl, rfl⟩
  | some c =>
    constructor
    · exact foldl_appendSamplePoint_samples_length (fun p : ℚ × ℚ × ℚ => p.1) (fun p : ℚ × ℚ × ℚ => 1 / p.2.1) _ invB xIdx
    · exact foldl_appendSamplePoint_samples_length (fun p : ℚ × ℚ × ℚ => p.1) (fun p : ℚ × ℚ × ℚ => p.2.2) _ mu2D xIdx

/-! ### extendLoop lemmas -/

theorem numY_ne_zero_lt (t : Tab2D) (i : Nat) (h : t.numY i ≠ 0) :
    i < t.samples.length := by
  by_contra hc
  push_neg at hc
  exact h (by show (t.samples.getD i []).length = 0; rw [list_getD_of_le _ _ _ hc]; rfl)

theorem extendLoop_ok_xPos (kind : TableKind) (usats : List (List USatRow)) :
    ∀ (fuel xIdx : Nat) (invB mu2D : Tab2D) (out : Tab2D × Tab2D),
      extendLoop kind usats xIdx fuel invB mu2D = Except.ok out →
      out.1.xPos = invB.xPos ∧ out.2.xPos = mu2D.xPos := by
  intro fuel
  induction fuel with
  | zero =>
    intro xIdx invB mu2D out h
    cases h
    exact ⟨rfl, rfl⟩
  | succ fuel ih =>
    intro xIdx invB mu2D out h
    rw [extendLoop] at h
    by_cases h0 : invB.numY xIdx = 0
    · rw [if_pos h0] at h; cases h
    · rw [if_neg h0] at h
      by_cases h1 : 1 < invB.numY xIdx
      · rw [if_pos h1] at h
        exact ih (xIdx + 1) invB mu2D out h
      · rw [if_neg h1] at h
        cases hm : findMasterAux usats (xIdx + 1) (usats.length - (xIdx + 1)) with
        | none => rw [hm] at h; cases h
        | some m =>
          rw [hm] at h
          obtain ⟨e1, e2⟩ := ih (xIdx + 1) _ _ out h
          obtain ⟨e3, e4⟩ :=
            extendPvtxTable_xPos invB mu2D xIdx (usats.getD xIdx []) (usats.getD m [])
          exact ⟨e1.trans e3, e2.trans e4⟩

theorem extendLoop_ok_numY_below (kind : TableKind) (usats : List (List USatRow)) :
    ∀ (fuel xIdx : Nat) (invB mu2D : Tab2D) (out : Tab2D × Tab2D),
      extendLoop kind usats xIdx fuel invB mu2D = Except.ok out →
      ∀ j, j < xIdx → out.1.numY j = invB.numY j ∧ out.2.numY j = mu2D.numY j := by
  intro fuel
  induction fuel with
  | zero =>
    intro xIdx invB mu2D out h j hj
    cases h
    exact ⟨rfl, rfl⟩
  | succ fuel ih =>
    intro xIdx invB mu2D out h j hj
    rw [extendLoop] at h
    by_cases h0 : invB.numY xIdx = 0
    · rw [if_pos h0] at h; cases h
    · rw [if_neg h0] at h
      by_cases h1 : 1 < invB.numY xIdx
      · rw [if_pos h1] at h
        exact ih (xIdx + 1) invB mu2D out h j (by omega)
      · rw [if_neg h1] at h
        cases hm : findMasterAux usats (xIdx + 1) (usats.length - (xIdx + 1)) with
        | none => rw [hm] at h; cases h
        | some m =>
          rw [hm] at h
          obtain ⟨e1, e2⟩ := ih (xIdx + 1) _ _ out h j (by omega)
          obtain ⟨e3, e4⟩ :=
            extendPvtxTable_numY_ne invB mu2D xIdx (usats.getD xIdx []) (usats.getD m []) j
              (by omega)
          exact ⟨e1.trans e3, e2.trans e4⟩

theorem extendLoop_ok_ge2 (kind : TableKind) (usats : List (List USatRow)) :
    ∀ (fuel xIdx : Nat) (invB mu2D : Tab2D) (out : Tab2D × Tab2D),
      extendLoop kind usats xIdx fuel invB mu2D = Except.ok out →
      (∀ i, xIdx ≤ i →
        invB.numY i = (usats.getD i []).length ∧ mu2D.numY i = (usats.getD i []).length) →
      ∀ j, xIdx ≤ j → j < xIdx + fuel → 2 ≤ out.1.numY j ∧ 2 ≤ out.2.numY j := by
  intro fuel
  induction fuel with
  | zero => intro _ _ _ _ _ _ j hj1 hj2; omega
  | succ fuel ih =>
    intro xIdx invB mu2D out h hcoh j hj1 hj2
    rw [extendLoop] at h
    by_cases h0 : invB.numY xIdx = 0
    · rw [if_pos h0] at h; cases h
    · rw [if_neg h0] at h
      by_cases h1 : 1 < invB.numY xIdx
      · rw [if_pos h1] at h
        by_cases hj : j = xIdx
        · subst hj
          obtain ⟨e1, e2⟩ := extendLoop_ok_numY_below kind usats fuel (j + 1) invB mu2D out h j
            (by omega)
          refine ⟨by omega, ?_⟩
          rw [e2, (hcoh j (Nat.le_refl j)).2, ← (hcoh j (Nat.le_refl j)).1]
          omega
        · exact ih (xIdx + 1) invB mu2D out h (fun i hi => hcoh i (by omega)) j (by omega)
            (by omega)
      · rw [if_neg h1] at h
        cases hm : findMasterAux usats (xIdx + 1) (usats.length - (xIdx + 1)) with
        | none => rw [hm] at h; cases h
        | some m =>
          rw [hm] at h
          have hny1 : invB.numY xIdx = 1 := by omega
          have hcur : (usats.getD xIdx []).length = 1 := by
            rw [← (hcoh xIdx (Nat.le_refl xIdx)).1]; exact hny1
          obtain ⟨c, hc⟩ : ∃ c, (usats.getD xIdx []).getLast? = some c := by
            cases hcc : usats.getD xIdx [] with
            | nil => rw [hcc] at hcur; cases hcur
            | cons a l => exact ⟨(a :: l).getLast (by simp), List.getLast?_eq_getLast _ _⟩
          have hmlen : 1 < (usats.getD m []).length :=
            (findMasterAux_some_spec usats _ _ m hm).2.2.1
          have hx1 : xIdx < invB.samples.length := numY_ne_zero_lt invB xIdx (by omega)
          have hx2 : xIdx < mu2D.samples.length := by
            refine numY_ne_zero_lt mu2D xIdx ?_
            rw [(hcoh xIdx (Nat.le_refl xIdx)).2]
            omega
          have hcoh2 : ∀ i, xIdx + 1 ≤ i →
              (extendPvtxTable invB mu2D xIdx (usats.getD xIdx []) (usats.getD m [])).1.numY i
                = (usats.getD i []).length ∧
              (extendPvtxTable invB mu2D xIdx (usats.getD xIdx []) (usats.getD m [])).2.numY i
                = (usats.getD i []).length := by
            intro i hi
            obtain ⟨e1, e2⟩ := extendPvtxTable_numY_ne invB mu2D xIdx (usats.getD xIdx [])
              (usats.getD m []) i (by omega)
            exact ⟨e1.trans (hcoh i (by omega)).1, e2.trans (hcoh i (by omega)).2⟩
          by_cases hj : j = xIdx
          · subst hj
            obtain ⟨e1, e2⟩ := extendLoop_ok_numY_below kind usats fuel (j + 1) _ _ out h j
              (by omega)
            obtain ⟨e3, e4⟩ := extendPvtxTable_numY_self invB mu2D j (usats.getD j [])
              (usats.getD m []) c hc hx1 hx2
            have e5 : mu2D.numY j = 1 := by
              rw [(hcoh j (Nat.le_refl j)).2]; exact hcur
            constructor
            · rw [e1, e3, hny1]; omega
            · rw [e2, e4, e5]; omega
          · exact ih (xIdx + 1) _ _ out h hcoh2 j (by omega) (by omega)

theorem extendLoop_noop (kind : TableKind) (usats : List (List USatRow)) :
    ∀ (fuel xIdx : Nat) (invB mu2D : Tab2D),
      (∀ j, xIdx ≤ j → j < xIdx + fuel → 2 ≤ invB.numY j) →
      extendLoop kind usats xIdx fuel invB mu2D = Except.ok (invB, mu2D) := by
  intro fuel
  induction fuel with
  | zero => intro xIdx invB mu2D h; rfl
  | succ fuel ih =>
    intro xIdx invB mu2D h
    have h2 : 2 ≤ invB.numY xIdx := h xIdx (Nat.le_refl xIdx) (by omega)
    rw [extendLoop, if_neg (by omega), if_pos (by omega)]
    exact ih (xIdx + 1) invB mu2D (fun j hj1 hj2 => h j (by omega) (by omega))

theorem extendLoop_ne_extrap (kind : TableKind) (usats : List (List USatRow)) :
    ∀ (fuel xIdx : Nat) (invB mu2D : Tab2D),
      (∀ i, xIdx ≤ i → invB.numY i = (usats.getD i []).length) →
      xIdx + fuel ≤ usats.length →
      2 ≤ (usats.getD (usats.length - 1) []).length →
      ∀ k, extendLoop kind usats xIdx fuel invB mu2D
          ≠ Except.error (PvtError.extrapolationImpossible k) := by
  intro fuel
  induction fuel with
  | zero => intro xIdx invB mu2D _ _ _ k h; cases h
  | succ fuel ih =>
    intro xIdx invB mu2D hcoh hfuel hlast k
    rw [extendLoop]
    by_cases h0 : invB.numY xIdx = 0
    · rw [if_pos h0]
      intro h
      rw [Except.error.injEq] at h
      cases h
    · rw [if_neg h0]
      by_cases h1 : 1 < invB.numY xIdx
      · rw [if_pos h1]
        exact ih (xIdx + 1) invB mu2D (fun i hi => hcoh i (by omega)) (by omega) hlast k
      · rw [if_neg h1]
        have hny1 : invB.numY xIdx = 1 := by omega
        have hraw1 : (usats.getD xIdx []).length = 1 := by
          rw [← hcoh xIdx (Nat.le_refl xIdx)]; exact hny1
        have hxlt : xIdx < usats.length := by omega
        have hne : xIdx ≠ usats.length - 1 := by
          intro he
          rw [← he] at hlast
          omega
        cases hm : findMasterAux usats (xIdx + 1) (usats.length - (xIdx + 1)) with
        | none =>
          exfalso
          have := findMasterAux_none_spec usats _ _ hm (usats.length - 1) (by omega) (by omega)
          omega
        | some m =>
          have hcoh2 : ∀ i, xIdx + 1 ≤ i →
              (extendPvtxTable invB mu2D xIdx (usats.getD xIdx []) (usats.getD m [])).1.numY i
                = (usats.getD i []).length := by
            intro i hi
            exact (extendPvtxTable_numY_ne invB mu2D xIdx (usats.getD xIdx [])
              (usats.getD m []) i (by omega)).1.trans (hcoh i (by omega))
          exact ih (xIdx + 1) _ _ hcoh2 (by omega) hlast k

theorem extendLoop_extrap_of (kind : TableKind) (usats : List (List USatRow)) :
    ∀ (fuel xIdx : Nat) (invB mu2D : Tab2D) (j : Nat),
      (∀ i, xIdx ≤ i → invB.numY i = (usats.getD i []).length) →
      xIdx ≤ j → j < xIdx + fuel → j < usats.length →
      (usats.getD j []).length = 1 →
      (∀ m, j < m → m < usats.length → (usats.getD m []).length ≤ 1) →
      (∀ i, xIdx ≤ i → i ≤ j → 1 ≤ (usats.getD i []).length) →
      extendLoop kind usats xIdx fuel invB mu2D
        = Except.error (PvtError.extrapolationImpossible kind) := by
  intro fuel
  induction fuel with
  | zero => intro xIdx invB mu2D j _ _ h2 _ _ _ _; omega
  | succ fuel ih =>
    intro xIdx invB mu2D j hcoh hj1 hj2 hj3 hdeg hafter hpos
    have hny : invB.numY xIdx = (usats.getD xIdx []).length := hcoh xIdx (Nat.le_refl xIdx)
    have hpos0 : 1 ≤ (usats.getD xIdx []).length := hpos xIdx (Nat.le_refl xIdx) hj1
    rw [extendLoop, if_neg (by omega)]
    by_cases h1 : 1 < invB.numY xIdx
    · rw [if_pos h1]
      have hxj : xIdx ≠ j := by
        intro he
        subst he
        rw [hdeg] at hny
        omega
      exact ih (xIdx + 1) invB mu2D j (fun i hi => hcoh i (by omega)) (by omega) (by omega)
        hj3 hdeg hafter (fun i hi1 hi2 => hpos i (by omega) hi2)
    · rw [if_neg h1]
      by_cases hxj : xIdx = j
      · subst hxj
        rw [findMasterAux_eq_none_of usats _ _
          (fun k hk1 hk2 => hafter k (by omega) (by omega))]
      · cases hm : findMasterAux usats (xIdx + 1) (usats.length - (xIdx + 1)) with
        | none => rfl
        | some m =>
          have hcoh2 : ∀ i, xIdx + 1 ≤ i →
              (extendPvtxTable invB mu2D xIdx (usats.getD xIdx []) (usats.getD m [])).1.numY i
                = (usats.getD i []).length := by
            intro i hi
            exact (extendPvtxTable_numY_ne invB mu2D xIdx (usats.getD xIdx [])
              (usats.getD m []) i (by omega)).1.trans (hcoh i (by omega))
          exact ih (xIdx + 1) _ _ j hcoh2 (by omega) (by omega) hj3 hdeg hafter
            (fun i hi1 hi2 => hpos i (by omega) hi2)

/-! ### More list lemmas -/

theorem list_get?_some_lt {α : Type} : ∀ (l : List α) (i : Nat) (a : α),
    l.get? i = some a → i < l.length
  | [], _, _, h => nomatch h
  | _ :: _, 0, _, _ => by simp
  | _ :: l, i + 1, a, h => Nat.succ_lt_succ (list_get?_some_lt l i a h)

theorem list_get?_getD {α : Type} : ∀ (l : List α) (i : Nat) (a d : α),
    l.get? i = some a → l.getD i d = a
  | [], _, _, _, h => nomatch h
  | b :: l, 0, a, d, h => by cases h; rfl
  | b :: l, i + 1, a, d, h => list_get?_getD l i a d h

theorem list_get?_mem {α : Type} : ∀ (l : List α) (i : Nat) (a : α),
    l.get? i = some a → a ∈ l
  | [], _, _, h => nomatch h
  | b :: l, 0, a, h => by cases h; exact List.mem_cons_self b l
  | b :: l, i + 1, a, h => List.mem_cons_of_mem b (list_get?_mem l i a h)

theorem list_getLast_eq_getD {α : Type} : ∀ (l : List α) (h : l ≠ []) (d : α),
    l.getLast h = l.getD (l.length - 1) d
  | [], h, _ => absurd rfl h
  | [a], _, d => rfl
  | a :: b :: l, _, d => by
    show (b :: l).getLast (by simp) = (a :: b :: l).getD ((b :: l).length) d
    rw [list_getLast_eq_getD (b :: l) (by simp) d]
    rfl

theorem list_getD_map_length {α β γ : Type} (f : α → List β) (g : α → List γ)
    (hfg : ∀ a, (f a).length = (g a).length) :
    ∀ (l : List α) (i : Nat),
      ((l.map f).getD i []).length = ((l.map g).getD i []).length := by
  intro l
  induction l with
  | nil => intro i; cases i <;> rfl
  | cons a l ih =>
    intro i
    cases i with
    | zero => exact hfg a
    | succ n => exact ih n

/-- The raw undersaturated tables handed to the extrapolation loop, read
back through getD. -/
theorem usats_getD (rows : PvtxTable) (i : Nat) :
    (rows.map fun r => r.2).getD i [] = (rows.getD i dRow).2 :=
  list_getD_map rows (fun r => r.2) i dRow

/-! ### processPvtxRegion lemmas -/

theorem buildInvB_numY (rows : PvtxTable) (i : Nat) :
    (buildTab2D (rawInvBBranches rows)).numY i = ((rows.map fun r => r.2).getD i []).length := by
  rw [Tab2D.numY, buildTab2D_samples, rawInvBBranches, List.map_map]
  exact list_getD_map_length
    (fun r => (Prod.snd ∘ fun r : SatRow × List USatRow =>
      (r.1.pg, r.2.map fun u => (u.rv, 1 / u.bg))) r)
    (fun r => r.2) (fun a => by simp) rows i

theorem buildMu_numY (rows : PvtxTable) (i : Nat) :
    (buildTab2D (rawMuBranches rows)).numY i = ((rows.map fun r => r.2).getD i []).length := by
  rw [Tab2D.numY, buildTab2D_samples, rawMuBranches, List.map_map]
  exact list_getD_map_length
    (fun r => (Prod.snd ∘ fun r : SatRow × List USatRow =>
      (r.1.pg, r.2.map fun u => (u.rv, u.mug))) r)
    (fun r => r.2) (fun a => by simp) rows i

theorem buildInvB_numX (rows : PvtxTable) :
    (buildTab2D (rawInvBBranches rows)).numX = rows.length := by
  rw [buildTab2D_numX, rawInvBBranches, List.length_map]

theorem processPvtxRegion_ok_elim (kind : TableKind) (rows : PvtxTable)
    (b : PvtxRegionTables) (h : processPvtxRegion kind rows = Except.ok b) :
    2 ≤ rows.length ∧
    ∃ p : Tab2D × Tab2D,
      extendLoop kind (rows.map fun r => r.2) 0 (buildTab2D (rawInvBBranches rows)).numX
          (buildTab2D (rawInvBBranches rows)) (buildTab2D (rawMuBranches rows))
        = Except.ok p ∧
      b = ⟨⟨rows.map fun r => (r.1.pg, r.1.rvw)⟩, p.1, p.2,
            invSatGasBOf rows, invSatGasBMuOf rows⟩ := by
  simp only [processPvtxRegion] at h
  by_cases hlen : rows.length < 2
  · rw [if_pos hlen] at h; cases h
  · rw [if_neg hlen] at h
    refine ⟨by omega, ?_⟩
    cases he : extendLoop kind (rows.map fun r => r.2) 0
        (buildTab2D (rawInvBBranches rows)).numX
        (buildTab2D (rawInvBBranches rows)) (buildTab2D (rawMuBranches rows)) with
    | error e => rw [he] at h; cases h
    | ok p =>
      rw [he] at h
      rw [Except.ok.injEq] at h
      exact ⟨p, rfl, h.symm⟩

theorem processPvtxRegion_insufficient (kind : TableKind) (rows : PvtxTable)
    (h : rows.length < 2) :
    processPvtxRegion kind rows = Except.error (PvtError.insufficientData kind) := by
  rw [processPvtxRegion, if_pos h]

theorem processPvtxRegion_ok_ge2 (kind : TableKind) (rows : PvtxTable)
    (b : PvtxRegionTables) (h : processPvtxRegion kind rows = Except.ok b) :
    ∀ x, x < b.invGasB.numX → 2 ≤ b.invGasB.numY x ∧ 2 ≤ b.gasMu.numY x := by
  obtain ⟨hlen, p, hext, hb⟩ := processPvtxRegion_ok_elim kind rows b h
  subst hb
  have hxp := extendLoop_ok_xPos kind (rows.map fun r => r.2) _ 0 _ _ p hext
  have hnumx : p.1.numX = rows.length := by
    rw [Tab2D.numX, hxp.1, ← Tab2D.numX, buildInvB_numX]
  intro x hx
  have hx2 : x < rows.length := by rw [← hnumx]; exact hx
  have hcoh : ∀ i, 0 ≤ i →
      (buildTab2D (rawInvBBranches rows)).numY i
        = ((rows.map fun r => r.2).getD i []).length ∧
      (buildTab2D (rawMuBranches rows)).numY i
        = ((rows.map fun r => r.2).getD i []).length :=
    fun i _ => ⟨buildInvB_numY rows i, buildMu_numY rows i⟩
  exact extendLoop_ok_ge2 kind (rows.map fun r => r.2) _ 0 _ _ p hext hcoh x
    (Nat.zero_le x) (by rw [Nat.zero_add, buildInvB_numX]; exact hx2)

theorem processPvtxRegion_ne_extrap (kind : TableKind) (rows : PvtxTable)
    (hne : rows ≠ []) (hlast : 2 ≤ (rows.getLast hne).2.length) :
    ∀ k, processPvtxRegion kind rows
        ≠ Except.error (PvtError.extrapolationImpossible k) := by
  intro k
  by_cases hlen : rows.length < 2
  · rw [processPvtxRegion, if_pos hlen]
    intro hh
    rw [Except.error.injEq] at hh
    cases hh
  · simp only [processPvtxRegion]
    rw [if_neg hlen]
    have husat : (rows.map fun r => r.2).length = rows.length := List.length_map _ _
    have hlast2 : 2 ≤ (((rows.map fun r => r.2)).getD
        ((rows.map fun r => r.2).length - 1) []).length := by
      rw [husat, usats_getD, ← list_getLast_eq_getD rows hne dRow]
      exact hlast
    have hcoh : ∀ i, 0 ≤ i →
        (buildTab2D (rawInvBBranches rows)).numY i
          = ((rows.map fun r => r.2).getD i []).length :=
      fun i _ => buildInvB_numY rows i
    have hfuel : 0 + (buildTab2D (rawInvBBranches rows)).numX
        ≤ (rows.map fun r => r.2).length := by
      rw [Nat.zero_add, buildInvB_numX, husat]
    have hne2 := extendLoop_ne_extrap kind (rows.map fun r => r.2)
      (buildTab2D (rawInvBBranches rows)).numX 0
      (buildTab2D (rawInvBBranches rows)) (buildTab2D (rawMuBranches rows))
      hcoh hfuel hlast2 k
    cases he : extendLoop kind (rows.map fun r => r.2) 0
        (buildTab2D (rawInvBBranches rows)).numX
        (buildTab2D (rawInvBBranches rows)) (buildTab2D (rawMuBranches rows)) with
    | error e =>
      intro hh
      rw [Except.error.injEq] at hh
      subst hh
      exact hne2 he
    | ok p =>
      intro hh
      cases hh

theorem processPvtxRegion_extrap_of (kind : TableKind) (rows : PvtxTable) (j : Nat)
    (hlen : 2 ≤ rows.length) (hj : j < rows.length)
    (hdeg : (rows.getD j dRow).2.length = 1)
    (hafter : ∀ m, j < m → m < rows.length → (rows.getD m dRow).2.length ≤ 1)
    (hpos : ∀ i, i ≤ j → 1 ≤ (rows.getD i dRow).2.length) :
    processPvtxRegion kind rows = Except.error (PvtError.extrapolationImpossible kind) := by
  simp only [processPvtxRegion]
  rw [if_neg (by omega)]
  have husat : (rows.map fun r => r.2).length = rows.length := List.length_map _ _
  have hcoh : ∀ i, 0 ≤ i →
      (buildTab2D (rawInvBBranches rows)).numY i
        = ((rows.map fun r => r.2).getD i []).length :=
    fun i _ => buildInvB_numY rows i
  have he := extendLoop_extrap_of kind (rows.map fun r => r.2)
    (buildTab2D (rawInvBBranches rows)).numX 0
    (buildTab2D (rawInvBBranches rows)) (buildTab2D (rawMuBranches rows)) j
    hcoh (Nat.zero_le j)
    (by rw [Nat.zero_add, buildInvB_numX]; exact hj)
    (by rw [husat]; exact hj)
    (by rw [usats_getD]; exact hdeg)
    (by intro m hm1 hm2; rw [usats_getD]; exact hafter m hm1 (by rw [husat] at hm2; exact hm2))
    (by intro i _ hi2; rw [usats_getD]; exact hpos i hi2)
  rw [he]

/-! ### regionsMapM lemmas -/

theorem regionsMapM_ok_length {α β : Type} (f : α → Except PvtError β) :
    ∀ (ts : List α) (rs : List β), regionsMapM f ts = Except.ok rs →
      rs.length = ts.length := by
  intro ts
  induction ts with
  | nil => intro rs h; cases h; rfl
  | cons a ts ih =>
    intro rs h
    rw [regionsMapM] at h
    cases hf : f a with
    | error e => rw [hf] at h; cases h
    | ok b =>
      rw [hf] at h
      cases hr : regionsMapM f ts with
      | error e => rw [hr] at h; cases h
      | ok bs =>
        rw [hr] at h
        cases h
        simp [ih bs hr]

theorem regionsMapM_ok_getD {α β : Type} (f : α → Except PvtError β) (da : α) (db : β) :
    ∀ (ts : List α) (rs : List β), regionsMapM f ts = Except.ok rs →
      ∀ i, i < ts.length → f (ts.getD i da) = Except.ok (rs.getD i db) := by
  intro ts
  induction ts with
  | nil => intro rs h i hi; simp at hi
  | cons a ts ih =>
    intro rs h i hi
    rw [regionsMapM] at h
    cases hf : f a with
    | error e => rw [hf] at h; cases h
    | ok b =>
      rw [hf] at h
      cases hr : regionsMapM f ts with
      | error e => rw [hr] at h; cases h
      | ok bs =>
        rw [hr] at h
        cases h
        cases i with
        | zero => exact hf
        | succ n => exact ih bs hr n (Nat.lt_of_succ_lt_succ hi)

theorem regionsMapM_map {α β γ : Type} (f : α → Except PvtError β) (g : β → γ) (gh : α → γ)
    (hc : ∀ a b, f a = Except.ok b → g b = gh a) :
    ∀ (ts : List α) (rs : List β), regionsMapM f ts = Except.ok rs →
      rs.map g = ts.map gh := by
  intro ts
  induction ts with
  | nil => intro rs h; cases h; rfl
  | cons a ts ih =>
    intro rs h
    rw [regionsMapM] at h
    cases hf : f a with
    | error e => rw [hf] at h; cases h
    | ok b =>
      rw [hf] at h
      cases hr : regionsMapM f ts with
      | error e => rw [hr] at h; cases h
      | ok bs =>
        rw [hr] at h
        cases h
        rw [List.map_cons, List.map_cons, hc a b hf, ih bs hr]

/-! ### saltRegionsLoop and saltPhase lemmas -/

theorem saltRegionsLoop_none (salts : List RwgsaltTable) (start n : Nat)
    (hg : salts.get? start = none) :
    saltRegionsLoop salts start (n + 1) = Except.error PvtError.indexOutOfBounds := by
  rw [saltRegionsLoop, hg]

theorem saltRegionsLoop_cons (salts : List RwgsaltTable) (start n : Nat)
    (t : RwgsaltTable) (hg : salts.get? start = some t) :
    saltRegionsLoop salts start (n + 1) =
      (if t.length < 2 then Except.error (PvtError.insufficientData TableKind.rwgsalt)
       else
        match saltRegionsLoop salts (start + 1) n with
        | Except.error e => Except.error e
        | Except.ok rest => Except.ok (buildTab2D t :: rest)) := by
  rw [saltRegionsLoop, hg]

theorem saltRegionsLoop_ok_spec (salts : List RwgsaltTable) :
    ∀ (n start : Nat) (out : List Tab2D), saltRegionsLoop salts start n = Except.ok out →
      ∀ idx, start ≤ idx → idx < start + n →
        idx < salts.length ∧ 2 ≤ (salts.getD idx []).length := by
  intro n
  induction n with
  | zero => intro start out h idx h1 h2; omega
  | succ n ih =>
    intro start out h idx h1 h2
    cases hg : salts.get? start with
    | none =>
      rw [saltRegionsLoop_none salts start n hg] at h
      exact Except.noConfusion h
    | some t =>
      rw [saltRegionsLoop_cons salts start n t hg] at h
      by_cases hlen : t.length < 2
      · rw [if_pos hlen] at h
        exact Except.noConfusion h
      · rw [if_neg hlen] at h
        by_cases hidx : idx = start
        · subst hidx
          refine ⟨list_get?_some_lt salts idx t hg, ?_⟩
          rw [list_get?_getD salts idx t [] hg]
          omega
        · cases hr : saltRegionsLoop salts (start + 1) n with
          | error e =>
            rw [hr] at h
            exact Except.noConfusion h
          | ok rest => exact ih (start + 1) rest hr idx (by omega) (by omega)

theorem saltRegionsLoop_oob (salts : List RwgsaltTable) :
    ∀ (n start : Nat), 1 ≤ n → salts.length < start + n →
      (∀ t ∈ salts, 2 ≤ t.length) →
      saltRegionsLoop salts start n = Except.error PvtError.indexOutOfBounds := by
  intro n
  induction n with
  | zero => intro start h1; omega
  | succ n ih =>
    intro start h1 h2 h3
    cases hg : salts.get? start with
    | none => exact saltRegionsLoop_none salts start n hg
    | some t =>
      have hmem : t ∈ salts := list_get?_mem salts start t hg
      have hlt : start < salts.length := list_get?_some_lt salts start t hg
      have hn : 1 ≤ n := by omega
      rw [saltRegionsLoop_cons salts start n t hg,
        if_neg (by have := h3 t hmem; omega), ih (start + 1) hn (by omega) h3]

theorem saltRegionsLoop_insufficient (salts : List RwgsaltTable) (start n : Nat)
    (t : RwgsaltTable) (hg : salts.get? start = some t) (hlen : t.length < 2) :
    saltRegionsLoop salts start (n + 1)
      = Except.error (PvtError.insufficientData TableKind.rwgsalt) := by
  rw [saltRegionsLoop_cons salts start n t hg, if_pos hlen]

theorem saltPhase_ok_spec (salts : List RwgsaltTable) (n : Nat)
    (res : Bool × List Tab2D) (h : saltPhase salts n = Except.ok res) (hne : salts ≠ []) :
    ∀ idx, idx < n → idx < salts.length ∧ 2 ≤ (salts.getD idx []).length := by
  rw [saltPhase] at h
  rw [if_neg (by simpa using hne)] at h
  cases hr : saltRegionsLoop salts 0 n with
  | error e => rw [hr] at h; cases h
  | ok tabs =>
    intro idx hidx
    exact saltRegionsLoop_ok_spec salts n 0 tabs hr idx (Nat.zero_le idx)
      (by omega)

/-! ### initFromState elimination and assembleState fields -/

theorem initFromState_ok_elim (ecl : EclipseTables) (sched : Schedule) (st : PvtState)
    (h : initFromState ecl sched = Except.ok st) :
    ecl.pvtgwTables.length = ecl.densityTable.length ∧
    ecl.pvtgTables.length = ecl.densityTable.length ∧
    ∃ (saltResult : Bool × List Tab2D) (ws gs : List PvtxRegionTables),
      saltPhase ecl.rwgsaltTables ecl.pvtgwTables.length = Except.ok saltResult ∧
      regionsMapM (processPvtxRegion TableKind.pvtgw) ecl.pvtgwTables = Except.ok ws ∧
      regionsMapM (processPvtxRegion TableKind.pvtg) ecl.pvtgTables = Except.ok gs ∧
      st = assembleState ecl sched saltResult ws gs := by
  rw [initFromState] at h
  by_cases h1 : ecl.pvtgwTables.length ≠ ecl.densityTable.length
  · rw [if_pos h1] at h; cases h
  · rw [if_neg h1] at h
    by_cases h2 : ecl.pvtgTables.length ≠ ecl.densityTable.length
    · rw [if_pos h2] at h; cases h
    · rw [if_neg h2] at h
      push_neg at h1 h2
      cases hs : saltPhase ecl.rwgsaltTables ecl.pvtgwTables.length with
      | error e => rw [hs] at h; cases h
      | ok saltResult =>
        rw [hs] at h
        cases hw : regionsMapM (processPvtxRegion TableKind.pvtgw) ecl.pvtgwTables with
        | error e => rw [hw] at h; cases h
        | ok ws =>
          rw [hw] at h
          cases hgm : regionsMapM (processPvtxRegion TableKind.pvtg) ecl.pvtgTables with
          | error e => rw [hgm] at h; cases h
          | ok gs =>
            rw [hgm] at h
            rw [Except.ok.injEq] at h
            exact ⟨h1, h2, saltResult, ws, gs, rfl, rfl, rfl, h.symm⟩

theorem assembleState_numRegions (ecl : EclipseTables) (sched : Schedule)
    (saltResult : Bool × List Tab2D) (ws gs : List PvtxRegionTables) :
    (assembleState ecl sched saltResult ws gs).numRegions = ecl.pvtgwTables.length := rfl

theorem assembleState_inverseGasBRvSat (ecl : EclipseTables) (sched : Schedule)
    (saltResult : Bool × List Tab2D) (ws gs : List PvtxRegionTables) :
    (assembleState ecl sched saltResult ws gs).inverseGasBRvSat
      = ws.map PvtxRegionTables.invGasB := rfl

theorem assembleState_gasMuRvSat (ecl : EclipseTables) (sched : Schedule)
    (saltResult : Bool × List Tab2D) (ws gs : List PvtxRegionTables) :
    (assembleState ecl sched saltResult ws gs).gasMuRvSat
      = ws.map PvtxRegionTables.gasMu := rfl

theorem assembleState_inverseGasBRvwSat (ecl : EclipseTables) (sched : Schedule)
    (saltResult : Bool × List Tab2D) (ws gs : List PvtxRegionTables) :
    (assembleState ecl sched saltResult ws gs).inverseGasBRvwSat
      = gs.map PvtxRegionTables.invGasB := rfl

theorem assembleState_gasMuRvwSat (ecl : EclipseTables) (sched : Schedule)
    (saltResult : Bool × List Tab2D) (ws gs : List PvtxRegionTables) :
    (assembleState ecl sched saltResult ws gs).gasMuRvwSat
      = gs.map PvtxRegionTables.gasMu := rfl

theorem assembleState_inverseSaturatedGasB (ecl : EclipseTables) (sched : Schedule)
    (saltResult : Bool × List Tab2D) (ws gs : List PvtxRegionTables) :
    (assembleState ecl sched saltResult ws gs).inverseSaturatedGasB
      = gs.map PvtxRegionTables.invSatGasB := rfl

theorem assembleState_inverseSaturatedGasBMu (ecl : EclipseTables) (sched : Schedule)
    (saltResult : Bool × List Tab2D) (ws gs : List PvtxRegionTables) :
    (assembleState ecl sched saltResult ws gs).inverseSaturatedGasBMu
      = gs.map PvtxRegionTables.invSatGasBMu := rfl

theorem assembleState_vapPar1 (ecl : EclipseTables) (sched : Schedule)
    (saltResult : Bool × List Tab2D) (ws gs : List PvtxRegionTables) :
    (assembleState ecl sched saltResult ws gs).vapPar1
      = (if sched.step0.kind = OilVaporizationKind.vappars then sched.step0.vap1 else 0) := rfl

/-! ### Claim theorems -/

/-- Claim C1: for every input on which initFromState completes without an
error, and for every region and both table families (PVTGW and PVTG), every
outer pressure node of the 2-D inverse-formation-volume-factor and
viscosity tables ends with at least 2 inner samples: no degenerate branch
survives construction. -/
theorem c1_no_degenerate_branch (ecl : EclipseTables) (sched : Schedule) (st : PvtState)
    (h : initFromState ecl sched = Except.ok st) (r x : Nat) (hr : r < st.numRegions) :
    (x < (st.inverseGasBRvSat.getD r Tab2D.empty).numX →
      2 ≤ (st.inverseGasBRvSat.getD r Tab2D.empty).numY x ∧
      2 ≤ (st.gasMuRvSat.getD r Tab2D.empty).numY x) ∧
    (x < (st.inverseGasBRvwSat.getD r Tab2D.empty).numX →
      2 ≤ (st.inverseGasBRvwSat.getD r Tab2D.empty).numY x ∧
      2 ≤ (st.gasMuRvwSat.getD r Tab2D.empty).numY x) := by
  obtain ⟨h1, h2, saltResult, ws, gs, hs, hw, hg, hst⟩ := initFromState_ok_elim ecl sched st h
  subst hst
  rw [assembleState_numRegions] at hr
  constructor
  · rw [assembleState_inverseGasBRvSat, assembleState_gasMuRvSat]
    have hget := regionsMapM_ok_getD (processPvtxRegion TableKind.pvtgw) []
      PvtxRegionTables.empty ecl.pvtgwTables ws hw r hr
    have e1 : (ws.map PvtxRegionTables.invGasB).getD r Tab2D.empty
        = (ws.getD r PvtxRegionTables.empty).invGasB :=
      list_getD_map ws PvtxRegionTables.invGasB r PvtxRegionTables.empty
    have e2 : (ws.map PvtxRegionTables.gasMu).getD r Tab2D.empty
        = (ws.getD r PvtxRegionTables.empty).gasMu :=
      list_getD_map ws PvtxRegionTables.gasMu r PvtxRegionTables.empty
    rw [e1, e2]
    intro hx
    exact processPvtxRegion_ok_ge2 TableKind.pvtgw (ecl.pvtgwTables.getD r [])
      (ws.getD r PvtxRegionTables.empty) hget x hx
  · rw [assembleState_inverseGasBRvwSat, assembleState_gasMuRvwSat]
    have hr2 : r < ecl.pvtgTables.length := by omega
    have hget := regionsMapM_ok_getD (processPvtxRegion TableKind.pvtg) []
      PvtxRegionTables.empty ecl.pvtgTables gs hg r hr2
    have e1 : (gs.map PvtxRegionTables.invGasB).getD r Tab2D.empty
        = (gs.getD r PvtxRegionTables.empty).invGasB :=
      list_getD_map gs PvtxRegionTables.invGasB r PvtxRegionTables.empty
    have e2 : (gs.map PvtxRegionTables.gasMu).getD r Tab2D.empty
        = (gs.getD r PvtxRegionTables.empty).gasMu :=
      list_getD_map gs PvtxRegionTables.gasMu r PvtxRegionTables.empty
    rw [e1, e2]
    intro hx
    exact processPvtxRegion_ok_ge2 TableKind.pvtg (ecl.pvtgTables.getD r [])
      (gs.getD r PvtxRegionTables.empty) hget x hx

theorem c1_witness :
    initFromState eclGood schedGood = Except.ok stGood ∧
    2 ≤ (stGood.inverseGasBRvSat.getD 0 Tab2D.empty).numY 0 ∧
    2 ≤ (stGood.gasMuRvSat.getD 0 Tab2D.empty).numY 0 ∧
    2 ≤ (stGood.inverseGasBRvwSat.getD 0 Tab2D.empty).numY 0 ∧
    2 ≤ (stGood.gasMuRvwSat.getD 0 Tab2D.empty).numY 0 := by
  have h : initFromState eclGood schedGood = Except.ok stGood := rfl
  have hc := c1_no_degenerate_branch eclGood schedGood stGood h 0 0 (by decide)
  exact ⟨h, (hc.1 (by decide)).1, (hc.1 (by decide)).2,
    (hc.2 (by decide)).1, (hc.2 (by decide)).2⟩

/-- One unfolding step of the synthesis, stated with the spec's formulas. -/
theorem synthPoints_spec_cons (m0 m1 : USatRow) (rest : List USatRow) (s : ℚ × ℚ × ℚ) :
    synthPoints (m0 :: m1 :: rest) s
      = (specNewRv s.1 m0 m1, specNewB s.2.1 m0 m1, specNewMu s.2.2 m0 m1)
          :: synthPoints (m1 :: rest)
            (specNewRv s.1 m0 m1, specNewB s.2.1 m0 m1, specNewMu s.2.2 m0 m1) := by
  have hrv : s.1 + (m1.rv - m0.rv) = specNewRv s.1 m0 m1 := rfl
  have hB : s.2.1 * (1 + (m1.bg - m0.bg) / ((m1.bg + m0.bg) / 2) / 2)
      / (1 - (m1.bg - m0.bg) / ((m1.bg + m0.bg) / 2) / 2) = specNewB s.2.1 m0 m1 := by
    simp only [specNewB]
    ring_nf
  have hMu : s.2.2 * (1 + (m1.mug - m0.mug) / ((m1.mug + m0.mug) / 2) / 2)
      / (1 - (m1.mug - m0.mug) / ((m1.mug + m0.mug) / 2) / 2) = specNewMu s.2.2 m0 m1 := by
    simp only [specNewMu]
    ring_nf
  show (s.1 + (m1.rv - m0.rv),
        s.2.1 * (1 + (m1.bg - m0.bg) / ((m1.bg + m0.bg) / 2) / 2)
          / (1 - (m1.bg - m0.bg) / ((m1.bg + m0.bg) / 2) / 2),
        s.2.2 * (1 + (m1.mug - m0.mug) / ((m1.mug + m0.mug) / 2) / 2)
          / (1 - (m1.mug - m0.mug) / ((m1.mug + m0.mug) / 2) / 2))
      :: synthPoints (m1 :: rest)
        (s.1 + (m1.rv - m0.rv),
         s.2.1 * (1 + (m1.bg - m0.bg) / ((m1.bg + m0.bg) / 2) / 2)
           / (1 - (m1.bg - m0.bg) / ((m1.bg + m0.bg) / 2) / 2),
         s.2.2 * (1 + (m1.mug - m0.mug) / ((m1.mug + m0.mug) / 2) / 2)
           / (1 - (m1.mug - m0.mug) / ((m1.mug + m0.mug) / 2) / 2)) = _
  rw [hrv, hB, hMu]

/-- Claim C2: on a degenerate node with single sample (r_s, B_s, mu_s) and a
two-sample master branch, the extrapolation synthesizes exactly the point
newRatio = r_s + (r1 - r0), newB = B_s (1 + x/2)/(1 - x/2) with
x = (B1 - B0)/((B0 + B1)/2), newMu = mu_s (1 + xMu/2)/(1 - xMu/2) with
xMu = (mu1 - mu0)/((mu0 + mu1)/2), appending (newRatio, 1/newB) to the
inverse-B table and (newRatio, newMu) to the viscosity table; and for a
longer master branch the same rule is applied per consecutive master pair,
accumulating from the node's own last synthesized values. -/
theorem c2_extrapolation_formula (c m0 m1 : USatRow) (rest : List USatRow)
    (s : ℚ × ℚ × ℚ) (invB mu2D : Tab2D) (xIdx : Nat) :
    synthPoints [m0, m1] (c.rv, c.bg, c.mug)
        = [(specNewRv c.rv m0 m1, specNewB c.bg m0 m1, specNewMu c.mug m0 m1)] ∧
    extendPvtxTable invB mu2D xIdx [c] [m0, m1]
        = (invB.appendSamplePoint xIdx (specNewRv c.rv m0 m1) (1 / specNewB c.bg m0 m1),
           mu2D.appendSamplePoint xIdx (specNewRv c.rv m0 m1) (specNewMu c.mug m0 m1)) ∧
    synthPoints (m0 :: m1 :: rest) s
        = (specNewRv s.1 m0 m1, specNewB s.2.1 m0 m1, specNewMu s.2.2 m0 m1)
            :: synthPoints (m1 :: rest)
              (specNewRv s.1 m0 m1, specNewB s.2.1 m0 m1, specNewMu s.2.2 m0 m1) := by
  refine ⟨?_, ?_, synthPoints_spec_cons m0 m1 rest s⟩
  · rw [synthPoints_spec_cons m0 m1 [] (c.rv, c.bg, c.mug)]
    rfl
  · rw [extendPvtxTable_eq_of_getLast invB mu2D xIdx [c] [m0, m1] c rfl,
      synthPoints_spec_cons m0 m1 [] (c.rv, c.bg, c.mug)]
    rfl

/-- Claim C3: for an outer node whose undersaturated branch has exactly one
sample, the engine scans forward from the next node and uses as master the
first node whose undersaturated table has at least 2 rows; if no such node
exists up to and including the last node (in particular when the last node
itself is degenerate), construction raises ExtrapolationImpossible. -/
theorem c3_master_scan :
    (∀ (usats : List (List USatRow)) (start fuel m : Nat),
       start ≤ m → m < start + fuel → 1 < (usats.getD m []).length →
       (∀ k, start ≤ k → k < m → (usats.getD k []).length ≤ 1) →
       findMasterAux usats start fuel = some m) ∧
    (∀ (usats : List (List USatRow)) (start fuel : Nat),
       (∀ k, start ≤ k → k < start + fuel → (usats.getD k []).length ≤ 1) →
       findMasterAux usats start fuel = none) ∧
    (∀ (kind : TableKind) (rows : PvtxTable) (j : Nat),
       2 ≤ rows.length → j < rows.length →
       (rows.getD j dRow).2.length = 1 →
       (∀ m, j < m → m < rows.length → (rows.getD m dRow).2.length ≤ 1) →
       (∀ i, i ≤ j → 1 ≤ (rows.getD i dRow).2.length) →
       processPvtxRegion kind rows = Except.error (PvtError.extrapolationImpossible kind)) :=
  ⟨fun usats start fuel m h1 h2 h3 h4 =>
      findMasterAux_eq_some_of usats fuel start m h1 h2 h3 h4,
   fun usats start fuel h => findMasterAux_eq_none_of usats fuel start h,
   fun kind rows j h1 h2 h3 h4 h5 =>
      processPvtxRegion_extrap_of kind rows j h1 h2 h3 h4 h5⟩

theorem c3_witness :
    findMasterAux usatsOneTwo 1 1 = some 1 ∧
    findMasterAux usatsOneOne 1 1 = none ∧
    processPvtxRegion TableKind.pvtgw tblBothDeg
      = Except.error (PvtError.extrapolationImpossible TableKind.pvtgw) := by
  refine ⟨c3_master_scan.1 usatsOneTwo 1 1 1 (by omega) (by omega) (by decide)
      (fun k hk1 hk2 => by omega),
    c3_master_scan.2.1 usatsOneOne 1 1 ?_,
    c3_master_scan.2.2 TableKind.pvtgw tblBothDeg 1 (by decide) (by decide) (by decide)
      (fun m hm1 hm2 => by
        have hlen : tblBothDeg.length = 2 := rfl
        omega) ?_⟩
  · intro k hk1 hk2
    have hk : k = 1 := by omega
    subst hk
    decide
  · intro i hi
    have hi2 : i = 0 ∨ i = 1 := by omega
    rcases hi2 with h | h <;> subst h <;> decide

/-- Claim C4 counterexample: with one density record, one PVTGW and one
PVTG table but two salt tables the counts are not all equal, yet
construction succeeds, so no TableMismatch is raised. -/
theorem c4_counterexample :
    initFromState eclC4 schedGood = Except.ok stC4 ∧
    eclC4.rwgsaltTables.length ≠ eclC4.densityTable.length :=
  ⟨rfl, by decide⟩

/-- Claim C4 (amended): if the PVTGW table count differs from the density
count, or the PVTG table count differs from the density count, construction
fails with a TableMismatch error naming the two mismatched counts, before
any per-region table is built; the salt-table count is never compared.  On
success the region count of the finalized state equals the density-table
length. -/
theorem c4_count_checks :
    (∀ (ecl : EclipseTables) (sched : Schedule),
       ecl.pvtgwTables.length ≠ ecl.densityTable.length →
       initFromState ecl sched = Except.error
         (PvtError.tableMismatch TableKind.pvtgw ecl.pvtgwTables.length
           ecl.densityTable.length)) ∧
    (∀ (ecl : EclipseTables) (sched : Schedule),
       ecl.pvtgwTables.length = ecl.densityTable.length →
       ecl.pvtgTables.length ≠ ecl.densityTable.length →
       initFromState ecl sched = Except.error
         (PvtError.tableMismatch TableKind.pvtg ecl.pvtgTables.length
           ecl.densityTable.length)) ∧
    (∀ (ecl : EclipseTables) (sched : Schedule) (st : PvtState),
       initFromState ecl sched = Except.ok st →
       st.numRegions = ecl.densityTable.length) := by
  refine ⟨?_, ?_, ?_⟩
  · intro ecl sched h
    rw [initFromState, if_pos h]
  · intro ecl sched h1 h2
    rw [initFromState, if_neg (fun hne => hne h1), if_pos h2]
  · intro ecl sched st h
    obtain ⟨h1, h2, saltResult, ws, gs, hs, hw, hg, hst⟩ :=
      initFromState_ok_elim ecl sched st h
    subst hst
    rw [assembleState_numRegions]
    exact h1

theorem c4_witness :
    initFromState eclMismatchW schedGood = Except.error
      (PvtError.tableMismatch TableKind.pvtgw 0 1) ∧
    initFromState eclMismatchG schedGood = Except.error
      (PvtError.tableMismatch TableKind.pvtg 0 1) ∧
    stGood.numRegions = eclGood.densityTable.length := by
  refine ⟨c4_count_checks.1 eclMismatchW schedGood (by decide),
    c4_count_checks.2.1 eclMismatchG schedGood (by decide) (by decide),
    c4_count_checks.2.2 eclGood schedGood stGood rfl⟩

/-- Claim C5: a PVTGW or PVTG saturated table with fewer than 2 rows is
rejected with InsufficientData, a salt table with fewer than 2 saturated
rows likewise, and construction never silently proceeds: on success every
region's PVTGW and PVTG tables have at least 2 saturated rows and, when
salt tables are present, so does every region's salt table. -/
theorem c5_insufficient_rows :
    (∀ (kind : TableKind) (rows : PvtxTable), rows.length < 2 →
       processPvtxRegion kind rows = Except.error (PvtError.insufficientData kind)) ∧
    (∀ (salts : List RwgsaltTable) (start n : Nat) (t : RwgsaltTable),
       salts.get? start = some t → t.length < 2 →
       saltRegionsLoop salts start (n + 1)
         = Except.error (PvtError.insufficientData TableKind.rwgsalt)) ∧
    (∀ (ecl : EclipseTables) (sched : Schedule) (st : PvtState),
       initFromState ecl sched = Except.ok st →
       ∀ r, r < st.numRegions →
         2 ≤ (ecl.pvtgwTables.getD r []).length ∧
         2 ≤ (ecl.pvtgTables.getD r []).length ∧
         (ecl.rwgsaltTables ≠ [] →
           r < ecl.rwgsaltTables.length ∧ 2 ≤ (ecl.rwgsaltTables.getD r []).length)) := by
  refine ⟨processPvtxRegion_insufficient,
    fun salts start n t hg hlen => saltRegionsLoop_insufficient salts start n t hg hlen, ?_⟩
  intro ecl sched st h r hr
  obtain ⟨h1, h2, saltResult, ws, gs, hs, hw, hg, hst⟩ := initFromState_ok_elim ecl sched st h
  subst hst
  rw [assembleState_numRegions] at hr
  have hgw := regionsMapM_ok_getD (processPvtxRegion TableKind.pvtgw) []
    PvtxRegionTables.empty ecl.pvtgwTables ws hw r hr
  have hgg := regionsMapM_ok_getD (processPvtxRegion TableKind.pvtg) []
    PvtxRegionTables.empty ecl.pvtgTables gs hg r (by omega)
  refine ⟨(processPvtxRegion_ok_elim _ _ _ hgw).1, (processPvtxRegion_ok_elim _ _ _ hgg).1, ?_⟩
  intro hne
  exact saltPhase_ok_spec ecl.rwgsaltTables ecl.pvtgwTables.length saltResult hs hne r hr

theorem c5_witness :
    processPvtxRegion TableKind.pvtgw ([] : PvtxTable)
        = Except.error (PvtError.insufficientData TableKind.pvtgw) ∧
    saltRegionsLoop [shortSalt] 0 1
        = Except.error (PvtError.insufficientData TableKind.rwgsalt) ∧
    2 ≤ (eclC4.pvtgwTables.getD 0 []).length ∧
    2 ≤ (eclC4.pvtgTables.getD 0 []).length ∧
    0 < eclC4.rwgsaltTables.length ∧
    2 ≤ (eclC4.rwgsaltTables.getD 0 []).length := by
  have h3 := c5_insufficient_rows.2.2 eclC4 schedGood stC4 rfl 0 (by decide)
  exact ⟨c5_insufficient_rows.1 TableKind.pvtgw [] (by decide),
    c5_insufficient_rows.2.1 [shortSalt] 0 0 shortSalt rfl (by decide),
    h3.1, h3.2.1, (h3.2.2 (by decide)).1, (h3.2.2 (by decide)).2⟩

/-- Claim C6 counterexample: in eclC6 the first PVTGW branch already has 2
samples, yet construction raises ExtrapolationImpossible because the last
node is degenerate and the master scan only looks forward; so an arbitrary
branch meeting the threshold does not preclude the error. -/
theorem c6_counterexample :
    initFromState eclC6 schedGood
        = Except.error (PvtError.extrapolationImpossible TableKind.pvtgw) ∧
    2 ≤ ((eclC6.pvtgwTables.getD 0 []).getD 0 dRow).2.length :=
  ⟨rfl, by decide⟩

/-- Claim C6 (amended): running the extrapolation step on a table whose
branches in range all already have at least 2 samples changes nothing (it
is a no-op), and no ExtrapolationImpossible can be raised whenever the LAST
node's raw branch satisfies the 2-sample threshold (a branch meeting the
threshold only at an earlier position does not suffice, since the master
scan runs forward). -/
theorem c6_extrapolation_noop :
    (∀ (kind : TableKind) (usats : List (List USatRow)) (xIdx fuel : Nat)
       (invB mu2D : Tab2D),
       (∀ j, xIdx ≤ j → j < xIdx + fuel → 2 ≤ invB.numY j) →
       extendLoop kind usats xIdx fuel invB mu2D = Except.ok (invB, mu2D)) ∧
    (∀ (kind : TableKind) (rows : PvtxTable) (hne : rows ≠ []),
       2 ≤ (rows.getLast hne).2.length →
       ∀ k, processPvtxRegion kind rows
           ≠ Except.error (PvtError.extrapolationImpossible k)) :=
  ⟨fun kind usats xIdx fuel invB mu2D h => extendLoop_noop kind usats fuel xIdx invB mu2D h,
   fun kind rows hne hlast k => processPvtxRegion_ne_extrap kind rows hne hlast k⟩

theorem c6_witness :
    extendLoop TableKind.pvtgw [] 0 2 tabTwo tabTwo = Except.ok (tabTwo, tabTwo) ∧
    processPvtxRegion TableKind.pvtgw tblDegFirst
      ≠ Except.error (PvtError.extrapolationImpossible TableKind.pvtgw) := by
  constructor
  · refine c6_extrapolation_noop.1 TableKind.pvtgw [] 0 2 tabTwo tabTwo ?_
    intro j h1 h2
    have hj : j = 0 ∨ j = 1 := by omega
    rcases hj with h | h <;> subst h <;> decide
  · exact c6_extrapolation_noop.2 TableKind.pvtgw tblDegFirst (by decide) (by decide)
      TableKind.pvtgw

/-- Claim C7: extrapolating a degenerate node (one raw sample) from a
master branch with n ≥ 2 samples leaves the node's branch with exactly n
inner samples in both 2-D tables, and the branch's ratio axis is strictly
increasing provided the master branch's ratio column is strictly
increasing. -/
theorem c7_extension_shape (invB mu2D : Tab2D) (xIdx : Nat) (c : USatRow)
    (master : List USatRow) (w wmu : ℚ)
    (hx1 : xIdx < invB.samples.length) (hx2 : xIdx < mu2D.samples.length)
    (hb1 : invB.samples.getD xIdx [] = [(c.rv, w)])
    (hb2 : mu2D.samples.getD xIdx [] = [(c.rv, wmu)])
    (hm : 2 ≤ master.length) :
    (extendPvtxTable invB mu2D xIdx [c] master).1.numY xIdx = master.length ∧
    (extendPvtxTable invB mu2D xIdx [c] master).2.numY xIdx = master.length ∧
    (List.Chain' (fun a b : ℚ => a < b) (master.map USatRow.rv) →
      List.Chain' (fun a b : ℚ => a < b)
        (((extendPvtxTable invB mu2D xIdx [c] master).1.samples.getD xIdx []).map Prod.fst) ∧
      List.Chain' (fun a b : ℚ => a < b)
        (((extendPvtxTable invB mu2D xIdx [c] master).2.samples.getD xIdx []).map Prod.fst)) := by
  have hny1 : invB.numY xIdx = 1 := by rw [Tab2D.numY, hb1]; rfl
  have hny2 : mu2D.numY xIdx = 1 := by rw [Tab2D.numY, hb2]; rfl
  have hself := extendPvtxTable_numY_self invB mu2D xIdx [c] master c rfl hx1 hx2
  have heq := extendPvtxTable_eq_of_getLast invB mu2D xIdx [c] master c rfl
  refine ⟨by rw [hself.1, hny1]; omega, by rw [hself.2, hny2]; omega, ?_⟩
  intro hchain
  have hs1 : (extendPvtxTable invB mu2D xIdx [c] master).1.samples
      = invB.samples.set xIdx ([(c.rv, w)]
          ++ (synthPoints master (c.rv, c.bg, c.mug)).map
              fun p : ℚ × ℚ × ℚ => (p.1, 1 / p.2.1)) := by
    rw [heq]
    show (List.foldl (fun t (p : ℚ × ℚ × ℚ) => t.appendSamplePoint xIdx p.1 (1 / p.2.1)) invB _).samples = _
    rw [foldl_appendSamplePoint_samples (fun p : ℚ × ℚ × ℚ => p.1)
      (fun p : ℚ × ℚ × ℚ => 1 / p.2.1) _ invB xIdx hx1, hb1]
  have hs2 : (extendPvtxTable invB mu2D xIdx [c] master).2.samples
      = mu2D.samples.set xIdx ([(c.rv, wmu)]
          ++ (synthPoints master (c.rv, c.bg, c.mug)).map
              fun p : ℚ × ℚ × ℚ => (p.1, p.2.2)) := by
    rw [heq]
    show (List.foldl (fun t (p : ℚ × ℚ × ℚ) => t.appendSamplePoint xIdx p.1 p.2.2) mu2D _).samples = _
    rw [foldl_appendSamplePoint_samples (fun p : ℚ × ℚ × ℚ => p.1)
      (fun p : ℚ × ℚ × ℚ => p.2.2) _ mu2D xIdx hx2, hb2]
  have hchain2 := synthPoints_chain master (c.rv, c.bg, c.mug) hchain
  constructor
  · rw [hs1, list_getD_set_self _ _ _ _ hx1, List.map_append, List.map_map]
    exact hchain2
  · rw [hs2, list_getD_set_self _ _ _ _ hx2, List.map_append, List.map_map]
    exact hchain2

theorem c7_witness :
    (extendPvtxTable tabOne tabOne 0 [⟨0, 1, 1⟩] [⟨0, 1, 1⟩, ⟨1, 2, 2⟩]).1.numY 0 = 2 ∧
    (extendPvtxTable tabOne tabOne 0 [⟨0, 1, 1⟩] [⟨0, 1, 1⟩, ⟨1, 2, 2⟩]).2.numY 0 = 2 ∧
    List.Chain' (fun a b : ℚ => a < b)
      (((extendPvtxTable tabOne tabOne 0
          [⟨0, 1, 1⟩] [⟨0, 1, 1⟩, ⟨1, 2, 2⟩]).1.samples.getD 0 []).map Prod.fst) ∧
    List.Chain' (fun a b : ℚ => a < b)
      (((extendPvtxTable tabOne tabOne 0
          [⟨0, 1, 1⟩] [⟨0, 1, 1⟩, ⟨1, 2, 2⟩]).2.samples.getD 0 []).map Prod.fst) := by
  have h := c7_extension_shape tabOne tabOne 0 ⟨0, 1, 1⟩ [⟨0, 1, 1⟩, ⟨1, 2, 2⟩] 1 1
    (by decide) (by decide) (by decide) (by decide) (by decide)
  have hc := h.2.2 (by
    show List.Chain' (fun a b : ℚ => a < b) [0, 1]
    exact List.chain'_cons.mpr ⟨by norm_num, List.chain'_singleton 1⟩)
  exact ⟨h.1, h.2.1, hc.1, hc.2⟩

/-- Claim C8: the vaporization-control coefficient of the finalized state
is read only from the schedule's first step: it equals that step's VAPPARS
coefficient when the first step's oil-vaporization type is VAPPARS and 0
otherwise, and the construction result does not depend on any later
schedule step. -/
theorem c8_vappars_first_step :
    (∀ (ecl : EclipseTables) (sched : Schedule) (st : PvtState),
       initFromState ecl sched = Except.ok st →
       st.vapPar1 = (if sched.step0.kind = OilVaporizationKind.vappars
         then sched.step0.vap1 else 0)) ∧
    (∀ (ecl : EclipseTables) (s0 : OilVapProps) (l1 l2 : List OilVapProps),
       initFromState ecl ⟨s0, l1⟩ = initFromState ecl ⟨s0, l2⟩) := by
  constructor
  · intro ecl sched st h
    obtain ⟨h1, h2, saltResult, ws, gs, hs, hw, hg, hst⟩ :=
      initFromState_ok_elim ecl sched st h
    subst hst
    exact assembleState_vapPar1 ecl sched saltResult ws gs
  · intro ecl s0 l1 l2
    rfl

theorem c8_witness :
    stGood.vapPar1 = (if schedGood.step0.kind = OilVaporizationKind.vappars
      then schedGood.step0.vap1 else 0) ∧
    initFromState eclGood ⟨⟨OilVaporizationKind.vappars, 3⟩, []⟩
      = initFromState eclGood ⟨⟨OilVaporizationKind.vappars, 3⟩, [⟨OilVaporizationKind.drdt, 7⟩]⟩ :=
  ⟨c8_vappars_first_step.1 eclGood schedGood stGood rfl,
   c8_vappars_first_step.2 eclGood ⟨OilVaporizationKind.vappars, 3⟩ []
     [⟨OilVaporizationKind.drdt, 7⟩]⟩

/-- Claim C9: the finalized shared saturated-curve 1-D tables for 1/B and
1/(mu B) hold the values derived from the humid-family (PVTG) saturated
table's PG, BG and MUG columns only: the PVTGW pass writes them first (see
assembleState) and the PVTG pass then overwrites them completely, so PVTGW
saturated B and mu never influence these two finalized curves. -/
theorem c9_saturated_curves_from_pvtg (ecl : EclipseTables) (sched : Schedule)
    (st : PvtState) (h : initFromState ecl sched = Except.ok st) :
    st.inverseSaturatedGasB = ecl.pvtgTables.map invSatGasBOf ∧
    st.inverseSaturatedGasBMu = ecl.pvtgTables.map invSatGasBMuOf := by
  obtain ⟨h1, h2, saltResult, ws, gs, hs, hw, hg, hst⟩ :=
    initFromState_ok_elim ecl sched st h
  subst hst
  rw [assembleState_inverseSaturatedGasB, assembleState_inverseSaturatedGasBMu]
  constructor
  · refine regionsMapM_map (processPvtxRegion TableKind.pvtg) PvtxRegionTables.invSatGasB
      invSatGasBOf ?_ ecl.pvtgTables gs hg
    intro a b hab
    obtain ⟨_, p, _, hb⟩ := processPvtxRegion_ok_elim TableKind.pvtg a b hab
    subst hb
    rfl
  · refine regionsMapM_map (processPvtxRegion TableKind.pvtg) PvtxRegionTables.invSatGasBMu
      invSatGasBMuOf ?_ ecl.pvtgTables gs hg
    intro a b hab
    obtain ⟨_, p, _, hb⟩ := processPvtxRegion_ok_elim TableKind.pvtg a b hab
    subst hb
    rfl

theorem c9_witness :
    stGood.inverseSaturatedGasB = eclGood.pvtgTables.map invSatGasBOf ∧
    stGood.inverseSaturatedGasBMu = eclGood.pvtgTables.map invSatGasBMuOf :=
  c9_saturated_curves_from_pvtg eclGood schedGood stGood rfl

/-- Claim C10: when salt tables are present, initFromState indexes the
salt-table list by every region index without comparing the salt-table
count to the region count; a salt-table list shorter than the region count
runs off the end of the list (the rendered out-of-bounds error, undefined
behavior in the C++), and is never rejected with a TableMismatch error. -/
theorem c10_salt_indexing (ecl : EclipseTables) (sched : Schedule)
    (h1 : ecl.pvtgwTables.length = ecl.densityTable.length)
    (h2 : ecl.pvtgTables.length = ecl.densityTable.length)
    (h3 : ecl.rwgsaltTables ≠ [])
    (h4 : ecl.rwgsaltTables.length < ecl.densityTable.length)
    (h5 : ∀ t ∈ ecl.rwgsaltTables, 2 ≤ t.length) :
    initFromState ecl sched = Except.error PvtError.indexOutOfBounds := by
  rw [initFromState, if_neg (fun hne => hne h1), if_neg (fun hne => hne h2)]
  have hempty : ¬ ecl.rwgsaltTables.isEmpty = true := by
    simpa using h3
  have hn : 1 ≤ ecl.pvtgwTables.length := by
    have := List.length_pos.mpr h3
    omega
  have hlen : ecl.rwgsaltTables.length < 0 + ecl.pvtgwTables.length := by omega
  have hsalt : saltPhase ecl.rwgsaltTables ecl.pvtgwTables.length
      = Except.error PvtError.indexOutOfBounds := by
    rw [saltPhase, if_neg hempty,
      saltRegionsLoop_oob ecl.rwgsaltTables ecl.pvtgwTables.length 0 hn hlen h5]
  rw [hsalt]

theorem c10_witness :
    initFromState eclC10 schedGood = Except.error PvtError.indexOutOfBounds :=
  c10_salt_indexing eclC10 schedGood (by decide) (by decide) (by decide) (by decide)
    (by decide)

end OpmPvt
